import Mathlib

/-!
Verification development for the content-network analysis core of the
youtube-analyzer repository (src/services/network_analyzer.py,
class ContentNetworkAnalyzer).

Conventions of the shallow embedding:
* Python floats are modelled as rationals (ℚ); numpy matrices as
  `List (List ℚ)` read through a total indexing helper `mget`.
* Python dicts with a fixed key set become structures; dicts used as maps
  become association lists in insertion order.
* Calls into scikit-learn / networkx / python-louvain whose numeric output
  cannot be reproduced here (TF-IDF fitting, cosine similarity, centrality,
  Louvain community detection) are abstracted as oracle parameters; a result
  of `none` models the call raising an exception (which the Python code
  catches), `some x` models it returning `x`.  All control flow, defaulting
  and data plumbing around those calls is translated from the source.
* Fallible entry points return an inductive result (`error` / `ok`)
  mirroring the `{"error": ...}` dictionaries of the source.
-/

/-- Total lookup in a `List (List ℚ)` matrix, 0 outside the stored shape
(the Python pipeline only reads positions inside the numpy array's shape). -/
def mget (m : List (List ℚ)) (i j : Nat) : ℚ := ((m.getD i []).getD j 0)

/-- `np.zeros((n, n))`. -/
def zerosMatrix (n : Nat) : List (List ℚ) :=
  List.replicate n (List.replicate n (0 : ℚ))

/-- A topic as stored in a video's prior summary: either a dict carrying a
`name` (and optionally a `confidence`), or a bare string.  Dicts without a
`name` key never contribute a topic name in the source and are not modelled. -/
inductive TopicEntry where
  | named (name : String) (confidence : Option ℚ)
  | bare (s : String)
deriving DecidableEq, Repr

/-- The topic's name: `topic['name']` for a dict, the string itself otherwise. -/
def TopicEntry.topicName : TopicEntry → String
  | .named n _ => n
  | .bare s => s

/-- `topic.get('confidence', 50)` for a dict topic, the default 50 for a bare
string topic (lines 620-627 of the source). -/
def TopicEntry.confidenceOf : TopicEntry → ℚ
  | .named _ c => c.getD 50
  | .bare _ => 50

/-- A video's prior per-document summary (`video['summary']`).  An absent or
falsy summary dict is modelled as `none` at the `Video` level. -/
structure Summary where
  topics : List TopicEntry := []
  short_summary : Option String := none
deriving DecidableEq, Repr

/-- A video document as consumed by ContentNetworkAnalyzer.  A field the
Python dict may lack is either an `Option` (when the code tests for its
presence) or defaults to the value `dict.get` would supply (`''` for id,
transcript, description and published_at). -/
structure Video where
  id : String := ""
  title : Option String := none
  channel_title : Option String := none
  transcript : String := ""
  description : String := ""
  published_at : String := ""
  summary : Option Summary := none
deriving DecidableEq, Repr

/-- The default similarity threshold of `ContentNetworkAnalyzer.__init__`
(Python literal 0.3). -/
def similarity_threshold : ℚ := 3 / 10

/-- Python's `<=` on strings: lexicographic comparison by code point.
(Defined by structural recursion so that proofs can evaluate it.) -/
def strLeAux : List Char → List Char → Bool
  | [], _ => true
  | _ :: _, [] => false
  | a :: as, b :: bs =>
    if a.toNat < b.toNat then true
    else if b.toNat < a.toNat then false
    else strLeAux as bs

/-- `a <= b` for strings, by code points as in Python. -/
def strLe (a b : String) : Bool := strLeAux a.toList b.toList

/-- Stable insertion of `x` into `l`: `x` goes in front of the first
element `y` with `le x y`. -/
def insertSortedBy {α : Type*} (le : α → α → Bool) (x : α) : List α → List α
  | [] => [x]
  | y :: ys => if le x y then x :: y :: ys else y :: insertSortedBy le x ys

/-- Python's stable `sorted(l, key=...)` / `list.sort(...)`, as a stable
insertion sort on a boolean comparator (defined by structural recursion so
that proofs can evaluate it; `sorted(..., reverse=True)` is rendered by
flipping the comparator, which preserves the original order of equal keys
exactly as CPython does). -/
def sortBy {α : Type*} (le : α → α → Bool) : List α → List α
  | [] => []
  | x :: xs => insertSortedBy le x (sortBy le xs)

/-- An undirected `networkx.Graph` as used by the analyzer: nodes are video
ids carrying a `title` attribute (insertion order, one entry per id), edges
are unordered pairs carrying a `weight` attribute, stored with the
orientation of their first insertion. -/
structure Graph where
  nodes : List (String × String) := []
  edges : List (String × String × ℚ) := []
deriving DecidableEq, Repr

/-- The node ids of a graph, in insertion order (`list(G.nodes())`). -/
def Graph.nodeIds (G : Graph) : List String := G.nodes.map Prod.fst

/-- `G.add_node(id, title=title)`: inserting an existing id overwrites its
`title` attribute in place, a new id is appended. -/
def Graph.addNode (G : Graph) (id title : String) : Graph :=
  if G.nodes.any (fun p => p.1 == id) then
    { G with nodes := G.nodes.map (fun p => if p.1 == id then (id, title) else p) }
  else
    { G with nodes := G.nodes ++ [(id, title)] }

/-- Whether the stored edge `e` joins `u` and `v` (in either orientation). -/
def sameEnds (e : String × String × ℚ) (u v : String) : Bool :=
  (e.1 == u && e.2.1 == v) || (e.1 == v && e.2.1 == u)

/-- `G.add_edge(u, v, weight=w)`: re-adding an existing unordered pair
overwrites its weight, otherwise the edge is appended.  (networkx would also
insert a missing endpoint as a node; in `_create_graph`, the only
constructor of graphs in this development, every endpoint has already been
added as a node, so that side effect is omitted.) -/
def Graph.addEdge (G : Graph) (u v : String) (w : ℚ) : Graph :=
  if G.edges.any (fun e => sameEnds e u v) then
    { G with edges := G.edges.map (fun e => if sameEnds e u v then (e.1, e.2.1, w) else e) }
  else
    { G with edges := G.edges ++ [(u, v, w)] }

/-- Whether the graph has an edge joining `u` and `v`. -/
def Graph.hasEdge (G : Graph) (u v : String) : Bool :=
  G.edges.any (fun e => sameEnds e u v)

/-- The ordered pairs `(i, j)` with `i < j < n`, in the iteration order of
`for i in range(n): for j in range(i+1, n):`. -/
def pairsBelow (n : Nat) : List (Nat × Nat) :=
  (List.range n).flatMap (fun i => ((List.range n).filter (fun j => i < j)).map (fun j => (i, j)))

/-- The node loop of `_create_graph` (lines 237-238): one `add_node` per
(id, title) pair. -/
def addNodes (ps : List (String × String)) (acc : Graph) : Graph :=
  ps.foldl (fun G p => G.addNode p.1 p.2) acc

/-- One iteration of the edge loop of `_create_graph` (lines 241-245). -/
def edgeStep (similarity_matrix : List (List ℚ)) (video_ids : List String)
    (threshold : ℚ) (G : Graph) (p : Nat × Nat) : Graph :=
  let similarity := mget similarity_matrix p.1 p.2
  if threshold ≤ similarity then
    G.addEdge (video_ids.getD p.1 "") (video_ids.getD p.2 "") similarity
  else G

/-- `_create_graph` (lines 232-247): add a node per id with its title, then
for every index pair `i < j` add an edge iff `matrix[i, j] >= threshold`,
with that entry as the weight. -/
def _create_graph (similarity_matrix : List (List ℚ)) (video_ids titles : List String)
    (threshold : ℚ) : Graph :=
  (pairsBelow video_ids.length).foldl (edgeStep similarity_matrix video_ids threshold)
    (addNodes (video_ids.zip titles) {})

/-- The indices of the nonempty texts (`valid_indices`, line 207). -/
def validIndices (texts : List String) : List Nat :=
  (List.range texts.length).filter (fun i => texts.getD i "" != "")

/-- The texts at the valid indices (`valid_texts`, line 208). -/
def validTexts (texts : List String) : List String :=
  (validIndices texts).map (fun i => texts.getD i "")

/-- `_calculate_similarity_matrix` (lines 200-230).  `cosine` abstracts
`cosine_similarity(self.vectorizer.fit_transform(valid_texts))`; `none`
models that call raising (caught at line 228).  The double loop writing
`full_similarity[vi, vj] = valid_similarity[i, j]` over an all-zero matrix
is rendered as the pointwise comprehension it computes: positions whose row
and column are both valid indices receive the corresponding entry of the
valid submatrix, all other positions keep 0. -/
def _calculate_similarity_matrix (cosine : List String → Option (List (List ℚ)))
    (texts : List String) : List (List ℚ) :=
  let n := texts.length
  if texts.all (fun t => t == "") then zerosMatrix n
  else
    let valid_indices := validIndices texts
    let valid_texts := validTexts texts
    if valid_texts.isEmpty then zerosMatrix n
    else
      match cosine valid_texts with
      | none => zerosMatrix n
      | some valid_similarity =>
        (List.range n).map (fun r =>
          (List.range n).map (fun c =>
            match valid_indices.findIdx? (fun i => i == r),
                  valid_indices.findIdx? (fun i => i == c) with
            | some vi, some vj => mget valid_similarity vi vj
            | _, _ => 0))

/-- The neighbours of `u` (`G.adj[u]`), one entry per incident edge. -/
def Graph.neighbors (G : Graph) (u : String) : List String :=
  G.edges.filterMap (fun e =>
    if e.1 == u then some e.2.1 else if e.2.1 == u then some e.1 else none)

/-- One breadth expansion of a reachable set: adjoin the not-yet-collected
neighbours that lie in `allowed`. -/
def expandStep (G : Graph) (allowed : List String) (acc : List String) : List String :=
  acc ++ (((acc.flatMap G.neighbors).filter
    (fun v => decide (v ∈ allowed) && !decide (v ∈ acc))).dedup)

/-- All nodes reachable from `u` through `allowed`: `G.nodes.length`
expansions reach a fixpoint on any graph.  (`nx.connected_components` does
not restrict its search, but a search from an unvisited node can only reach
unvisited nodes, so restricting to `allowed` — the unvisited nodes — is the
same set; the restriction is what makes the partition shape evident.) -/
def componentOf (G : Graph) (allowed : List String) (u : String) : List String :=
  Nat.iterate (expandStep G allowed) G.nodes.length [u]

/-- The components of the nodes in `pending` not yet in `visited`, in
first-node order, as produced by `list(nx.connected_components(G))`. -/
def componentsAux (G : Graph) : List String → List String → List (List String)
  | [], _ => []
  | u :: rest, visited =>
    if u ∈ visited then componentsAux G rest visited
    else
      let c := componentOf G ((G.nodeIds).filter (fun v => !decide (v ∈ visited))) u
      c :: componentsAux G rest (visited ++ c)

/-- `list(nx.connected_components(G))`. -/
def connected_components (G : Graph) : List (List String) :=
  componentsAux G G.nodeIds []

/-- The ImportError fallback of `_identify_content_clusters` (lines 394-399):
`partition[node] = i` for the `i`-th connected component. -/
def fallbackPartition (G : Graph) : List (String × Nat) :=
  (connected_components G).enum.flatMap (fun p => p.2.map (fun v => (v, p.1)))

/-- `nx.density(G)`: `0` for an edgeless or at-most-one-node graph, else
`2m / (n(n-1))`. -/
def graph_density (G : Graph) : ℚ :=
  let n := G.nodes.length
  let m := G.edges.length
  if m = 0 ∨ n ≤ 1 then 0 else (2 * m : ℚ) / ((n : ℚ) * ((n : ℚ) - 1))

/-- `max` over the values of a centrality dict (nonempty in every use). -/
def listMaxQ : List ℚ → ℚ
  | [] => 0
  | x :: xs => xs.foldl max x

/-- `_calculate_network_metrics` (lines 249-280).  `avgClustering`,
`degCent` and `betCent` abstract `nx.average_clustering`,
`nx.degree_centrality` and `nx.betweenness_centrality`; `none` models the
call raising.  The try at lines 259-262 defaults `average_clustering` to 0;
the try at lines 270-278 only logs, so a failing centrality computation
leaves its keys unset, and a betweenness failure still keeps the
already-stored degree keys. -/
def _calculate_network_metrics (G : Graph)
    (avgClustering : Graph → Option ℚ)
    (degCent : Graph → Option (List (String × ℚ)))
    (betCent : Graph → Option (List (String × ℚ))) : List (String × ℚ) :=
  let m0 : List (String × ℚ) :=
    [("node_count", (G.nodes.length : ℚ)),
     ("edge_count", (G.edges.length : ℚ)),
     ("density", graph_density G)]
  let m1 := m0 ++ [("average_clustering", match avgClustering G with
    | some c => c
    | none => 0)]
  let m2 := m1 ++ [("component_count", ((connected_components G).length : ℚ))]
  if 0 < G.nodes.length then
    match degCent G with
    | none => m2
    | some dc =>
      let m3 := m2 ++
        [("max_degree_centrality", if dc.isEmpty then 0 else listMaxQ (dc.map Prod.snd)),
         ("avg_degree_centrality",
           if dc.isEmpty then 0 else (dc.map Prod.snd).sum / (dc.length : ℚ))]
      match betCent G with
      | none => m3
      | some bc => m3 ++
        [("max_betweenness_centrality", if bc.isEmpty then 0 else listMaxQ (bc.map Prod.snd))]
  else m2

/-- Truncation toward zero, Python's `int(...)` on a float. -/
def qtrunc (x : ℚ) : Int := if 0 ≤ x then ⌊x⌋ else ⌈x⌉

/-- Python's `term in text` for the nonempty substrings this code tests. -/
def occursIn (term text : String) : Bool := (text.splitOn term).length != 1

/-- `_extract_topics_from_text` (lines 542-588).  `tfidf` abstracts fitting
the local TfidfVectorizer on `[text]` and pairing `get_feature_names_out()`
with the scores; `none` models the call raising (e.g. an empty vocabulary),
caught at line 586 into `[]`.  From the score-sorted terms, single-character
terms are skipped and at most 5 topics are kept, each with confidence
`int(score * 100)`. -/
def _extract_topics_from_text (tfidf : String → Option (List (String × ℚ)))
    (text : String) : List TopicEntry :=
  if text = "" then []
  else
    match tfidf text with
    | none => []
    | some term_scores =>
      let sorted := sortBy (fun a b => decide (b.2 ≤ a.2)) term_scores
      (((sorted.take 10).filter (fun p => 1 < p.1.length)).take 5).map
        (fun p => .named p.1 (some ((qtrunc (p.2 * 100) : Int) : ℚ)))

/-- One extracted network topic (`_extract_network_topics` records). -/
structure NetTopic where
  name : String
  score : ℚ
  count : Nat
  videos : List String
deriving DecidableEq, Repr

/-- `_extract_network_topics` (lines 282-334).  `tfidf` abstracts the
topic vectorizer fitted on the single combined document; `none` models it
raising (caught at line 332 into `[]`).  `count` and `videos` record exact
substring presence of the term in each transcript.  `titles` is accepted
and unused, as in the source. -/
def _extract_network_topics (tfidf : String → Option (List (String × ℚ)))
    (transcripts : List String) (video_ids : List String) (_titles : List String) :
    List NetTopic :=
  let combined_text := String.intercalate " " (transcripts.filter (fun t => t != ""))
  if combined_text = "" then []
  else
    match tfidf combined_text with
    | none => []
    | some term_scores =>
      let sorted := sortBy (fun a b => decide (b.2 ≤ a.2)) term_scores
      (((sorted.take 10).filter (fun p => 1 < p.1.length)).take 5).map
        (fun p =>
          { name := p.1, score := p.2,
            count := (transcripts.filter (fun t => occursIn p.1 t)).length,
            videos := ((transcripts.zip video_ids).filter
              (fun q => occursIn p.1 q.1)).map Prod.snd })

/-- One ranked central video (`_identify_central_videos` records). -/
structure CentralVideo where
  id : String
  title : String
  channel_title : String
  degree_centrality : ℚ
  betweenness_centrality : ℚ
  combined_score : ℚ
deriving DecidableEq, Repr

/-- `dict.get(node, 0)` over an association list. -/
def lookupQ (xs : List (String × ℚ)) (k : String) : ℚ := (xs.lookup k).getD 0

/-- `_identify_central_videos` (lines 336-381).  `degCent` / `betCent` as in
the metrics; a failure of either is caught at line 379 into `[]`.  Per node
(in insertion order) the two centralities are combined, nodes are sorted by
combined score descending (Python's stable sort) and the top 3 that match a
video in `videos` are reported. -/
def _identify_central_videos (G : Graph)
    (degCent betCent : Graph → Option (List (String × ℚ)))
    (videos : List Video) : List CentralVideo :=
  if G.nodes.length = 0 then []
  else
    match degCent G, betCent G with
    | some dc, some bc =>
      let node_centrality := G.nodeIds.map (fun node =>
        (node, lookupQ dc node, lookupQ bc node, lookupQ dc node + lookupQ bc node))
      let sorted_nodes := sortBy (fun a b => decide (b.2.2.2 ≤ a.2.2.2)) node_centrality
      let top_nodes := sorted_nodes.take 3
      top_nodes.filterMap (fun nd =>
        match videos.find? (fun v => v.id == nd.1) with
        | some v => some
            { id := nd.1, title := v.title.getD "Unknown",
              channel_title := v.channel_title.getD "Unknown",
              degree_centrality := nd.2.1, betweenness_centrality := nd.2.2.1,
              combined_score := nd.2.2.2 }
        | none => none)
    | _, _ => []

/-- A cluster member (`{"id", "title", "channel_title"}` dict). -/
structure ClusterMember where
  id : String
  title : String
  channel_title : String
deriving DecidableEq, Repr

/-- A content cluster (`{"id", "videos", "size"}` dict). -/
structure Cluster where
  id : Nat
  videos : List ClusterMember
  size : Nat
deriving DecidableEq, Repr

/-- `clusters[cluster_id].append(m)` on a `defaultdict(list)` kept in key
insertion order. -/
def addToBucket : List (Nat × List ClusterMember) → Nat → ClusterMember →
    List (Nat × List ClusterMember)
  | [], cid, m => [(cid, [m])]
  | (c, ms) :: rest, cid, m =>
    if c = cid then (c, ms ++ [m]) :: rest else (c, ms) :: addToBucket rest cid m

/-- The grouping loop of `_identify_content_clusters` (lines 401-410): each
partition entry whose node id matches a video contributes one member record
to its cluster's bucket. -/
def clusterBuckets (partition : List (String × Nat)) (videos : List Video) :
    List (Nat × List ClusterMember) :=
  partition.foldl (fun bs pr =>
    match videos.find? (fun v => v.id == pr.1) with
    | some v => addToBucket bs pr.2 ⟨pr.1, v.title.getD "Unknown", v.channel_title.getD "Unknown"⟩
    | none => bs) []

/-- The multiset of member records `clusterBuckets` distributes over its
buckets: one per partition entry whose node id matches a video. -/
def clusterContrib (partition : List (String × Nat)) (videos : List Video) :
    List ClusterMember :=
  partition.filterMap (fun pr =>
    (videos.find? (fun v => v.id == pr.1)).map (fun v =>
      ⟨pr.1, v.title.getD "Unknown", v.channel_title.getD "Unknown"⟩))

/-- `_identify_content_clusters` (lines 383-429).  `louvain` abstracts
`community.best_partition(G)`: `some p` is the partition dict it returns (in
iteration order), `none` models the ImportError that selects the
connected-components fallback.  Buckets are formatted, empty ones dropped
(none can be empty) and the clusters sorted by size descending. -/
def _identify_content_clusters (G : Graph) (louvain : Option (List (String × Nat)))
    (videos : List Video) : List Cluster :=
  if G.nodes.length = 0 then []
  else
    let partition := match louvain with
      | some p => p
      | none => fallbackPartition G
    let result := ((clusterBuckets partition videos).filter
      (fun b => !b.2.isEmpty)).map (fun b => { id := b.1, videos := b.2, size := b.2.length })
    sortBy (fun a b => decide (b.size ≤ a.size)) result

/-- A single-quote character, used by the insight templates. -/
def sQuote : String := String.singleton (Char.ofNat 39)

/-- `", ".join(f"'{name}'" for name in names)`. -/
def quoteJoin (names : List String) : String :=
  String.intercalate ", " (names.map (fun n => sQuote ++ n ++ sQuote))

/-- The size/cluster-count/density sentences of lines 437-452.  The three
insight segments (size/connectivity, central videos, topics) are named
definitions so that statements can address one segment; their concatenation
in `_generate_network_insights` is the source's append order. -/
def sizeInsights (G : Graph) (clusters : List Cluster) : List String :=
  if 0 < G.nodes.length then
    ["The content network consists of " ++ toString G.nodes.length ++ " videos with " ++
      toString G.edges.length ++ " connections between them."]
    ++ (if 1 < clusters.length then
          ["The content is organized into " ++ toString clusters.length ++
            " distinct topic clusters."]
        else if clusters.length = 1 then
          ["All videos form a single coherent content cluster."]
        else [])
    ++ (let density := graph_density G
        if 7/10 < density then
          ["The content network is very densely connected, indicating strongly related content."]
        else if 3/10 < density then
          ["The content network shows moderate connectivity between videos."]
        else
          ["The content network is sparsely connected, suggesting diverse or loosely related content."])
  else []

/-- The central-video sentences of lines 454-461. -/
def centralInsights (central_videos : List CentralVideo) : List String :=
  match central_videos with
  | [] => []
  | most_central :: rest =>
    ["The video " ++ sQuote ++ most_central.title ++ sQuote ++
      " is central to the content network, connecting multiple topics."]
    ++ (match rest with
        | [] => []
        | second :: rest2 =>
          ["Other influential videos include " ++ sQuote ++ second.title ++ sQuote ++
            (match rest2 with
             | third :: _ => " and " ++ sQuote ++ third.title ++ sQuote
             | [] => "") ++ "."])

/-- The topic sentences of lines 463-469.  All sentences are the source's
templates, except that line 469 (the additional-topics sentence) is a
Python SyntaxError in the source (a malformed nested-quote f-string);
following the spec's design note, which calls it a latent bug whose intent
is a well-formed quoted list of the remaining topic names, that one
sentence is Modelled from the spec: the names of `topics[3:]`, each
single-quoted, joined by ", ". -/
def topicInsights (topics : List NetTopic) : List String :=
  if topics.isEmpty then []
  else
    ["The most common topics across the content network are " ++
      quoteJoin ((topics.take 3).map (fun t => t.name)) ++ "."]
    ++ (if 3 < topics.length then
          ["Additional topics include " ++
            quoteJoin ((topics.drop 3).map (fun t => t.name)) ++ "."]
        else [])

/-- `_generate_network_insights` (lines 431-471): the three insight
segments in the source's order (`_videos` is accepted and unused, as in the
source). -/
def _generate_network_insights (G : Graph) (_videos : List Video)
    (topics : List NetTopic) (central_videos : List CentralVideo)
    (clusters : List Cluster) : List String :=
  sizeInsights G clusters ++ centralInsights central_videos ++ topicInsights topics

/-- A visualization node (`{"id", "title", "group", "channel"?}`). -/
structure VizNode where
  id : String
  title : String
  group : Nat
  channel : Option String
deriving DecidableEq, Repr

/-- A visualization edge (`{"source", "target", "value"}`). -/
structure VizEdge where
  source : String
  target : String
  value : ℚ
deriving DecidableEq, Repr

/-- Visualization payload (`{"nodes", "edges"}`). -/
structure VizData where
  nodes : List VizNode
  edges : List VizEdge
deriving DecidableEq, Repr

/-- `_prepare_visualization_data` (lines 473-506): one node per graph node
that matches a video (title falling back to the node's title attribute,
`channel` present exactly when the video dict has a `channel_title` key),
one edge per graph edge with its weight as `value` (the weight attribute is
always set by `_create_graph`). -/
def _prepare_visualization_data (G : Graph) (videos : List Video) : VizData :=
  { nodes := G.nodes.filterMap (fun nd =>
      match videos.find? (fun v => v.id == nd.1) with
      | some v => some { id := nd.1, title := v.title.getD nd.2, group := 1,
                         channel := v.channel_title }
      | none => none),
    edges := G.edges.map (fun e => { source := e.1, target := e.2.1, value := e.2.2 }) }

/-- Python's `\w` for this corpus: alphanumeric or underscore (the source's
text is ASCII-normalized by this very function; full Unicode word classes
are out of scope). -/
def isWordChar (c : Char) : Bool := c.isAlphanum || c == '_'

/-- Does the character list start with `http://` or `https://`? -/
def startsScheme (cs : List Char) : Bool :=
  List.isPrefixOf "http://".toList cs || List.isPrefixOf "https://".toList cs

/-- `re.sub(r'https?://\S+', '', text)`: drop each scheme-led maximal run of
non-whitespace characters. -/
def removeUrls : List Char → List Char
  | [] => []
  | c :: rest =>
    if startsScheme (c :: rest) then
      removeUrls (rest.dropWhile (fun d => !d.isWhitespace))
    else c :: removeUrls rest
termination_by cs => cs.length
decreasing_by
  · simp only [List.length_cons]
    exact Nat.lt_succ_of_le (List.Sublist.length_le (List.dropWhile_sublist _))
  · simp

/-- `_preprocess_text` (lines 180-198): lowercase, URLs removed,
non-word/non-space characters and digits turned into spaces, whitespace
collapsed (`re.sub(r'\s+', ' ', ...).strip()` is `' '.join(text.split())`).
Replacing each digit by a space instead of each digit run by one space is
identical after the whitespace collapse. -/
def _preprocess_text (text : String) : String :=
  if text = "" then ""
  else
    let cs := removeUrls text.toLower.toList
    let cs := cs.map (fun c => if isWordChar c || c.isWhitespace then c else ' ')
    let cs := cs.map (fun c => if c.isDigit then ' ' else c)
    String.intercalate " "
      (((String.mk cs).split Char.isWhitespace).filter (fun w => w != ""))

/-- The library calls `build_content_network` delegates to, as oracles (see
the module docstring).  `louvain` returns the `best_partition` dict for a
graph, or `none` for the ImportError that selects the fallback. -/
structure Oracles where
  cosine : List String → Option (List (List ℚ))
  corpusTfidf : String → Option (List (String × ℚ))
  avgClustering : Graph → Option ℚ
  degCent : Graph → Option (List (String × ℚ))
  betCent : Graph → Option (List (String × ℚ))
  louvain : Graph → Option (List (String × Nat))

/-- The successful payload of `build_content_network`. -/
structure NetworkResult where
  network_metrics : List (String × ℚ)
  topics : List NetTopic
  central_videos : List CentralVideo
  clusters : List Cluster
  insights : List String
  visualization_data : VizData
deriving DecidableEq, Repr

/-- Result of `build_content_network`: the `{"error": ...}` dict or the
full analysis dict. -/
inductive BCNResult where
  | error (msg : String)
  | ok (r : NetworkResult)
deriving DecidableEq, Repr

/-- `build_content_network` (lines 31-81): with fewer than 2 videos the
`{"error": ...}` dict is returned (line 41-43); otherwise the full pipeline
runs on the preprocessed transcripts. -/
def build_content_network (or : Oracles) (videos : List Video) : BCNResult :=
  if videos.length < 2 then .error "Insufficient videos for network analysis"
  else
    let transcripts := videos.map (fun v => _preprocess_text v.transcript)
    let titles := videos.map (fun v => v.title.getD "Unknown")
    let video_ids := videos.map (fun v => v.id)
    let similarity_matrix := _calculate_similarity_matrix or.cosine transcripts
    let G := _create_graph similarity_matrix video_ids titles similarity_threshold
    let metrics := _calculate_network_metrics G or.avgClustering or.degCent or.betCent
    let topics := _extract_network_topics or.corpusTfidf transcripts video_ids titles
    let central_videos := _identify_central_videos G or.degCent or.betCent videos
    let clusters := _identify_content_clusters G (or.louvain G) videos
    let insights := _generate_network_insights G videos topics central_videos clusters
    let visualization_data := _prepare_visualization_data G videos
    .ok { network_metrics := metrics, topics := topics, central_videos := central_videos,
          clusters := clusters, insights := insights,
          visualization_data := visualization_data }

/-- One entry of the `video_topics` list built at lines 100-114. -/
structure VideoTopics where
  id : String
  title : String
  published_at : String
  topics : List TopicEntry
deriving DecidableEq, Repr

/-- Whether `video.get('summary') and video['summary'].get('topics')` is
truthy: a summary is present and its topic list nonempty. -/
def hasSummaryTopics (v : Video) : Bool :=
  match v.summary with
  | some s => !s.topics.isEmpty
  | none => false

/-- The per-video topic source of `analyze_topic_evolution` (lines 100-114):
existing summary topics if truthy, else extraction from
`transcript or description or ''`. -/
def videoTopicSource (tfidf : String → Option (List (String × ℚ))) (v : Video) :
    List TopicEntry :=
  if hasSummaryTopics v then (v.summary.getD {}).topics
  else
    _extract_topics_from_text tfidf
      (if v.transcript != "" then v.transcript else v.description)

/-- Lines 96-114 of `analyze_topic_evolution`: videos sorted by
`published_at` (Python's stable sort), each mapped to its id, title,
date and topic list. -/
def compute_video_topics (tfidf : String → Option (List (String × ℚ)))
    (videos : List Video) : List VideoTopics :=
  let sorted_videos := sortBy (fun a b => strLe a.published_at b.published_at) videos
  sorted_videos.map (fun v =>
    { id := v.id, title := v.title.getD "Unknown", published_at := v.published_at,
      topics := videoTopicSource tfidf v })

/-- One appearance record of a topic's timeline. -/
structure Appearance where
  video_id : String
  title : String
  published_at : String
  confidence : ℚ
deriving DecidableEq, Repr

/-- `_track_topic_evolution` (lines 590-638).  The universe of topic names
(a Python set; its iteration order is unspecified, fixed here to first
appearance order, on which no claim depends) is collected, and for each
topic every video whose topic list contains it (first match supplies the
confidence) contributes one appearance, in video order. -/
def _track_topic_evolution (video_topics : List VideoTopics) :
    List (String × List Appearance) :=
  if video_topics.isEmpty then []
  else
    let all_topics :=
      (video_topics.flatMap (fun v => v.topics.map TopicEntry.topicName)).dedup
    all_topics.map (fun topic =>
      (topic, video_topics.filterMap (fun v =>
        match v.topics.find? (fun e => e.topicName == topic) with
        | some e => some { video_id := v.id, title := v.title,
                           published_at := v.published_at,
                           confidence := e.confidenceOf }
        | none => none)))

/-- The simple linear regression slope of lines 658-664: x = 0..k-1,
y = the values, `(n*Σxy - Σx*Σy) / (n*Σx² - (Σx)²)`. -/
def slopeOf (ys : List ℚ) : ℚ :=
  let n : ℚ := (ys.length : ℚ)
  let xs : List ℚ := (List.range ys.length).map (fun i => (i : ℚ))
  (n * ((xs.zip ys).map (fun p => p.1 * p.2)).sum - xs.sum * ys.sum) /
    (n * (xs.map (fun x => x * x)).sum - xs.sum * xs.sum)

/-- One topic's metrics record (lines 666-681). -/
structure TopicMetric where
  appearances : Nat
  first_appearance : String
  last_appearance : String
  trend_slope : ℚ
  average_confidence : ℚ
deriving DecidableEq, Repr

/-- A placeholder appearance for total head/last access (the source indexes
a list it knows has at least 2 elements). -/
def defaultAppearance : Appearance :=
  { video_id := "", title := "", published_at := "", confidence := 0 }

/-- Appearances sorted by `published_at` (line 653, Python's stable sort). -/
def sortAppearances (apps : List Appearance) : List Appearance :=
  sortBy (fun a b => strLe a.published_at b.published_at) apps

/-- The metrics record of one topic (lines 653-681): with at least 3
confidences the regression slope of the date-sorted confidences is stored,
with exactly 2 the slope is 0. -/
def metricFor (apps : List Appearance) : TopicMetric :=
  let sorted_appearances := sortAppearances apps
  let confidences := sorted_appearances.map (fun a => a.confidence)
  let base : TopicMetric :=
    { appearances := apps.length,
      first_appearance := (sorted_appearances.headD defaultAppearance).published_at,
      last_appearance := (sorted_appearances.getLastD defaultAppearance).published_at,
      trend_slope := 0,
      average_confidence := confidences.sum / (confidences.length : ℚ) }
  if 3 ≤ confidences.length then { base with trend_slope := slopeOf confidences }
  else base

/-- The metrics dict of `_identify_topic_trends`: topics with fewer than 2
appearances are skipped (line 649). -/
def topic_metrics (topic_evolution : List (String × List Appearance)) :
    List (String × TopicMetric) :=
  topic_evolution.filterMap (fun pr =>
    if pr.2.length < 2 then none else some (pr.1, metricFor pr.2))

/-- The three trend categories (lines 696-700). -/
structure TopicTrends where
  trending : List String
  declining : List String
  stable : List String
deriving DecidableEq, Repr

/-- `_identify_topic_trends` (lines 640-700).  An empty evolution dict
returns the empty dict `{}` (modelled as `none`: no trend keys at all);
otherwise each topic with computed metrics is categorized by its slope
against ±0.5. -/
def _identify_topic_trends (topic_evolution : List (String × List Appearance)) :
    Option TopicTrends :=
  if topic_evolution.isEmpty then none
  else
    let tm := topic_metrics topic_evolution
    some
      { trending := (tm.filter (fun pr => decide ((1 : ℚ)/2 < pr.2.trend_slope))).map Prod.fst,
        declining := (tm.filter (fun pr => decide (pr.2.trend_slope < -((1 : ℚ)/2)))).map Prod.fst,
        stable := (tm.filter (fun pr =>
          !decide ((1 : ℚ)/2 < pr.2.trend_slope) &&
          !decide (pr.2.trend_slope < -((1 : ℚ)/2)))).map Prod.fst }

/-- `_generate_topic_evolution_insights` (lines 702-729). -/
def _generate_topic_evolution_insights
    (topic_evolution : List (String × List Appearance))
    (topic_trends : Option TopicTrends) : List String :=
  let varietyIns : List String :=
    if topic_evolution.isEmpty then []
    else
      ["The content covers " ++ toString topic_evolution.length ++ " distinct topics over time."]
      ++ (let sorted_topics := sortBy (fun a b => decide (b.2 ≤ a.2))
            (topic_evolution.map (fun pr => (pr.1, pr.2.length)))
          if sorted_topics.isEmpty then []
          else ["The most frequently discussed topics are " ++
            quoteJoin ((sorted_topics.take 3).map Prod.fst) ++ "."])
  let trendingList := match topic_trends with
    | some tr => tr.trending
    | none => []
  let decliningList := match topic_trends with
    | some tr => tr.declining
    | none => []
  varietyIns
  ++ (if trendingList.isEmpty then []
      else ["Topics gaining traction include " ++ quoteJoin (trendingList.take 3) ++ "."])
  ++ (if decliningList.isEmpty then []
      else ["Topics receiving less focus recently include " ++
        quoteJoin (decliningList.take 3) ++ "."])

/-- Result of `analyze_topic_evolution`. -/
inductive ATEResult where
  | error (msg : String)
  | ok (topic_evolution : List (String × List Appearance))
       (topic_trends : Option TopicTrends) (insights : List String)
deriving DecidableEq, Repr

/-- `analyze_topic_evolution` (lines 83-129): `{"error": ...}` for an empty
input, else the evolution/trends/insights triple. -/
def analyze_topic_evolution (tfidf : String → Option (List (String × ℚ)))
    (videos : List Video) : ATEResult :=
  if videos.isEmpty then .error "No videos provided for analysis"
  else
    let video_topics := compute_video_topics tfidf videos
    let topic_evolution := _track_topic_evolution video_topics
    let topic_trends := _identify_topic_trends topic_evolution
    .ok topic_evolution topic_trends
      (_generate_topic_evolution_insights topic_evolution topic_trends)

/-- The summaries collected at lines 145-148: `short_summary` values that
are present and truthy (nonempty). -/
def shortSummaries (videos : List Video) : List String :=
  videos.filterMap (fun v =>
    let t := (v.summary.bind (fun s => s.short_summary)).getD ""
    if t = "" then none else some t)

/-- `generate_comprehensive_summary` (lines 131-178).  The two guards are
translated from the source; `composeBody` abstracts lines 153-178 (key
sentence extraction and markdown assembly), which no claim inspects and
which only runs when at least one usable summary exists. -/
def generate_comprehensive_summary (composeBody : List Video → List String → String)
    (videos : List Video) : String :=
  if videos.isEmpty then "No videos provided for analysis."
  else
    let summaries := shortSummaries videos
    if summaries.isEmpty then "No summaries available for analysis."
    else composeBody videos summaries

/-- Whether `video.get('summary') and video['summary'].get('short_summary')`
is truthy: the video carries a usable summary (lines 147-148). -/
def usableSummary (v : Video) : Bool :=
  (v.summary.bind (fun s => s.short_summary)).getD "" != ""

/-- All member ids across a cluster list, in order. -/
def allMemberIds (cs : List Cluster) : List String :=
  cs.flatMap (fun c => c.videos.map (fun m => m.id))

/-- The `title` attribute the graph stores for id `d`. -/
def nodeTitle (G : Graph) (d : String) : Option String :=
  (G.nodes.find? (fun p => p.1 == d)).map Prod.snd

/-- The title paired with the last occurrence of id `d` in the input order. -/
def lastTitleFor (video_ids titles : List String) (d : String) : Option String :=
  (((video_ids.zip titles).reverse).find? (fun p => p.1 == d)).map Prod.snd

theorem shortSummaries_eq_nil_of_unusable (videos : List Video)
    (h : ∀ v ∈ videos, usableSummary v = false) : shortSummaries videos = [] := by
  rw [shortSummaries, List.filterMap_eq_nil_iff]
  intro v hv
  have hu := h v hv
  rw [usableSummary, bne_eq_false_iff_eq] at hu
  simp [hu]

/-- C1: build_content_network on an empty or single-document list returns
the `{"error": ...}` result without raising; analyze_topic_evolution on an
empty list returns `{"error": ...}` without raising; and
generate_comprehensive_summary returns an explanatory plain-text string
both for no documents and for documents none of which carries a usable
summary.  (The embedded functions are total, so no case can raise.) -/
theorem input_error_guards (or : Oracles) (tfidf : String → Option (List (String × ℚ)))
    (composeBody : List Video → List String → String)
    (videos svideos : List Video)
    (hsmall : videos = [] ∨ videos.length = 1)
    (hne : svideos ≠ [])
    (hnosum : ∀ v ∈ svideos, usableSummary v = false) :
    build_content_network or videos = BCNResult.error "Insufficient videos for network analysis"
    ∧ analyze_topic_evolution tfidf [] = ATEResult.error "No videos provided for analysis"
    ∧ generate_comprehensive_summary composeBody [] = "No videos provided for analysis."
    ∧ generate_comprehensive_summary composeBody svideos = "No summaries available for analysis." := by
  refine ⟨?_, by simp [analyze_topic_evolution], by simp [generate_comprehensive_summary], ?_⟩
  · have hlt : videos.length < 2 := by rcases hsmall with h | h <;> simp [h]
    simp [build_content_network, hlt]
  · have h1 : svideos.isEmpty = false := by
      cases svideos with
      | nil => exact absurd rfl hne
      | cons a l => rfl
    have h2 := shortSummaries_eq_nil_of_unusable svideos hnosum
    simp [generate_comprehensive_summary, h1, h2]

/-- Witness for `input_error_guards` at a concrete single-document input and
a concrete summary-less document list. -/
theorem input_error_guards_witness :
    build_content_network
        ⟨fun _ => none, fun _ => none, fun _ => none, fun _ => none, fun _ => none,
         fun _ => none⟩ [{ id := "v1" }]
      = BCNResult.error "Insufficient videos for network analysis"
    ∧ analyze_topic_evolution (fun _ => none) [] = ATEResult.error "No videos provided for analysis"
    ∧ generate_comprehensive_summary (fun _ _ => "") [] = "No videos provided for analysis."
    ∧ generate_comprehensive_summary (fun _ _ => "") [{ id := "v2" }]
      = "No summaries available for analysis." :=
  input_error_guards _ _ _ [{ id := "v1" }] [{ id := "v2" }] (Or.inr rfl)
    (by decide) (by decide)

theorem insertSortedBy_perm {α : Type*} (le : α → α → Bool) (x : α) (l : List α) :
    (insertSortedBy le x l).Perm (x :: l) := by
  induction l with
  | nil => exact List.Perm.refl _
  | cons y ys ih =>
    rw [insertSortedBy]
    by_cases hxy : le x y = true
    · rw [if_pos hxy]
    · rw [if_neg hxy]
      exact (ih.cons y).trans (List.Perm.swap x y ys)

theorem sortBy_perm {α : Type*} (le : α → α → Bool) (l : List α) :
    (sortBy le l).Perm l := by
  induction l with
  | nil => exact List.Perm.refl _
  | cons x xs ih => exact (insertSortedBy_perm le x (sortBy le xs)).trans (ih.cons x)

theorem length_sortBy {α : Type*} (le : α → α → Bool) (l : List α) :
    (sortBy le l).length = l.length := (sortBy_perm le l).length_eq

theorem pairwise_insertSortedBy {α : Type*} {le : α → α → Bool}
    (htot : ∀ a b, le a b = true ∨ le b a = true)
    (htr : ∀ a b c, le a b = true → le b c = true → le a c = true)
    (x : α) {l : List α} (hl : List.Pairwise (fun a b => le a b = true) l) :
    List.Pairwise (fun a b => le a b = true) (insertSortedBy le x l) := by
  induction l with
  | nil => simp [insertSortedBy]
  | cons y ys ih =>
    rw [insertSortedBy]
    by_cases hxy : le x y = true
    · rw [if_pos hxy]
      refine List.Pairwise.cons ?_ hl
      intro z hz
      rcases List.mem_cons.mp hz with rfl | hz'
      · exact hxy
      · exact htr _ _ _ hxy (List.rel_of_pairwise_cons hl hz')
    · rw [if_neg hxy]
      have hyx : le y x = true := (htot x y).resolve_left hxy
      refine List.Pairwise.cons ?_ (ih hl.of_cons)
      intro z hz
      rcases List.mem_cons.mp ((insertSortedBy_perm le x ys).mem_iff.mp hz) with rfl | hz'
      · exact hyx
      · exact List.rel_of_pairwise_cons hl hz'

theorem sortBy_sorted {α : Type*} {le : α → α → Bool}
    (htot : ∀ a b, le a b = true ∨ le b a = true)
    (htr : ∀ a b c, le a b = true → le b c = true → le a c = true)
    (l : List α) : List.Pairwise (fun a b => le a b = true) (sortBy le l) := by
  induction l with
  | nil => exact List.Pairwise.nil
  | cons x xs ih => exact pairwise_insertSortedBy htot htr x ih

theorem mget_zerosMatrix (n i j : Nat) : mget (zerosMatrix n) i j = 0 := by
  simp only [mget, zerosMatrix, List.getD_eq_getElem?_getD, List.getElem?_replicate]
  split <;> simp [List.getElem?_replicate] <;> split <;> simp

theorem mget_grid (f : Nat → Nat → ℚ) (n i j : Nat) (hi : i < n) (hj : j < n) :
    mget ((List.range n).map (fun r => (List.range n).map (fun c => f r c))) i j
      = f i j := by
  simp only [mget, List.getD_eq_getElem?_getD, List.getElem?_map,
    List.getElem?_range hi]
  simp only [Option.map_some', Option.getD_some, List.getElem?_map,
    List.getElem?_range hj]

theorem mem_validIndices {texts : List String} {i : Nat} :
    i ∈ validIndices texts ↔ i < texts.length ∧ texts.getD i "" ≠ "" := by
  simp [validIndices, List.mem_filter, List.mem_range]

theorem getD_mem {l : List String} {i : Nat} (h : i < l.length) (d : String) :
    l.getD i d ∈ l := by
  rw [List.getD_eq_getElem _ _ h]
  exact List.getElem_mem h

theorem zerosMatrix_shape (n : Nat) :
    (zerosMatrix n).length = n ∧ ∀ row ∈ zerosMatrix n, row.length = n := by
  constructor
  · simp [zerosMatrix]
  · intro row hrow
    rw [zerosMatrix] at hrow
    rw [List.eq_of_mem_replicate hrow]
    simp

/-- C7: `_calculate_similarity_matrix` always returns an N×N matrix; if all
texts are empty it is the all-zero matrix; the row and column of every empty
text are entirely zero, diagonal included; a vectorization failure yields
the all-zero matrix instead of propagating; and every nonempty text has a
rank in the valid subset, with entries among nonempty texts taken from the
matrix the model produced on that subset. -/
theorem similarity_matrix_spec (cosine : List String → Option (List (List ℚ)))
    (texts : List String) :
    ((_calculate_similarity_matrix cosine texts).length = texts.length
      ∧ ∀ row ∈ _calculate_similarity_matrix cosine texts, row.length = texts.length)
    ∧ ((∀ t ∈ texts, t = "") →
        _calculate_similarity_matrix cosine texts = zerosMatrix texts.length)
    ∧ (∀ i j, i < texts.length → j < texts.length → texts.getD i "" = "" →
        mget (_calculate_similarity_matrix cosine texts) i j = 0
        ∧ mget (_calculate_similarity_matrix cosine texts) j i = 0)
    ∧ (cosine (validTexts texts) = none →
        _calculate_similarity_matrix cosine texts = zerosMatrix texts.length)
    ∧ (∀ i, i < texts.length → texts.getD i "" ≠ "" →
        ∃ ri, (validIndices texts).findIdx? (fun k => k == i) = some ri)
    ∧ (∀ vs ri rj i j, cosine (validTexts texts) = some vs →
        i < texts.length → j < texts.length →
        (validIndices texts).findIdx? (fun k => k == i) = some ri →
        (validIndices texts).findIdx? (fun k => k == j) = some rj →
        mget (_calculate_similarity_matrix cosine texts) i j = mget vs ri rj) := by
  by_cases hall : texts.all (fun t => t == "") = true
  · have hR : _calculate_similarity_matrix cosine texts = zerosMatrix texts.length := by
      unfold _calculate_similarity_matrix
      rw [if_pos hall]
    rw [List.all_eq_true] at hall
    have hvalid : validIndices texts = [] := by
      rw [validIndices, List.filter_eq_nil_iff]
      intro i hi
      rw [List.mem_range] at hi
      have := hall _ (getD_mem hi "")
      simp at this ⊢
      exact this
    refine ⟨hR ▸ zerosMatrix_shape texts.length, fun _ => hR, ?_, fun _ => hR, ?_, ?_⟩
    · intro i j _ _ _
      rw [hR]
      exact ⟨mget_zerosMatrix _ _ _, mget_zerosMatrix _ _ _⟩
    · intro i hi hne
      exact absurd (by simpa using hall _ (getD_mem hi "")) hne
    · intro vs ri rj i j _ _ _ hfi _
      rw [hvalid] at hfi
      simp at hfi
  · have hvne : ¬(validTexts texts).isEmpty = true := by
      rw [List.all_eq_true] at hall
      push_neg at hall
      obtain ⟨t, ht, hte⟩ := hall
      obtain ⟨i, hi, rfl⟩ := List.mem_iff_getElem.mp ht
      have hmem : i ∈ validIndices texts := by
        rw [mem_validIndices]
        refine ⟨hi, ?_⟩
        rw [List.getD_eq_getElem _ _ hi]
        simpa using hte
      have : texts.getD i "" ∈ validTexts texts := by
        rw [validTexts]
        exact List.mem_map.mpr ⟨i, hmem, rfl⟩
      intro hempty
      rw [List.isEmpty_iff] at hempty
      rw [hempty] at this
      exact absurd this (List.not_mem_nil _)
    cases hcos : cosine (validTexts texts) with
    | none =>
      have hR : _calculate_similarity_matrix cosine texts = zerosMatrix texts.length := by
        unfold _calculate_similarity_matrix
        rw [if_neg hall, if_neg hvne, hcos]
      refine ⟨hR ▸ zerosMatrix_shape texts.length,
        fun h => hR, ?_, fun _ => hR, ?_, ?_⟩
      · intro i j _ _ _
        rw [hR]
        exact ⟨mget_zerosMatrix _ _ _, mget_zerosMatrix _ _ _⟩
      · intro i hi hne
        have hmem : i ∈ validIndices texts := mem_validIndices.mpr ⟨hi, hne⟩
        cases hf : (validIndices texts).findIdx? (fun k => k == i) with
        | some ri => exact ⟨ri, rfl⟩
        | none =>
          rw [List.findIdx?_eq_none_iff] at hf
          have := hf i hmem
          simp at this
      · intro vs ri rj i j hvs _ _ _ _
        exact absurd hvs (by simp)
    | some vs =>
      have hR : _calculate_similarity_matrix cosine texts =
          (List.range texts.length).map (fun r => (List.range texts.length).map (fun c =>
            match (validIndices texts).findIdx? (fun i => i == r),
                  (validIndices texts).findIdx? (fun i => i == c) with
            | some vi, some vj => mget vs vi vj
            | _, _ => 0)) := by
        unfold _calculate_similarity_matrix
        rw [if_neg hall, if_neg hvne, hcos]
      refine ⟨?_, ?_, ?_, ?_, ?_, ?_⟩
      · rw [hR]
        constructor
        · simp
        · intro row hrow
          obtain ⟨r, _, rfl⟩ := List.mem_map.mp hrow
          simp
      · intro h
        exfalso
        rw [List.all_eq_true] at hall
        push_neg at hall
        obtain ⟨t, ht, hte⟩ := hall
        exact hte (by simpa using h t ht)
      · intro i j hi hj hempty
        have hnone : (validIndices texts).findIdx? (fun k => k == i) = none := by
          rw [List.findIdx?_eq_none_iff]
          intro x hx
          by_contra hcon
          simp only [Bool.not_eq_false, beq_iff_eq] at hcon
          subst hcon
          exact (mem_validIndices.mp hx).2 hempty
        constructor
        · rw [hR, mget_grid _ _ i j hi hj, hnone]
        · rw [hR, mget_grid _ _ j i hj hi, hnone]
          cases (validIndices texts).findIdx? (fun k => k == j) <;> rfl
      · intro hcon
        exact absurd hcon (by simp)
      · intro i hi hne
        have hmem : i ∈ validIndices texts := mem_validIndices.mpr ⟨hi, hne⟩
        cases hf : (validIndices texts).findIdx? (fun k => k == i) with
        | some ri => exact ⟨ri, rfl⟩
        | none =>
          rw [List.findIdx?_eq_none_iff] at hf
          have := hf i hmem
          simp at this
      · intro vs' ri rj i j hvs hi hj hfi hfj
        injection hvs with hvs
        subst hvs
        rw [hR, mget_grid _ _ i j hi hj, hfi, hfj]

/-- Witness for `similarity_matrix_spec`: with texts `["a", "", "b"]` and a
concrete 2×2 model matrix, the middle row's diagonal entry is zero and the
corner entry comes from the submodel. -/
theorem similarity_matrix_spec_witness :
    (1 < (["a", "", "b"] : List String).length
      ∧ (["a", "", "b"] : List String).getD 1 "" = "")
    ∧ mget (_calculate_similarity_matrix
        (fun _ => some [[1, (1:ℚ)/2], [(1:ℚ)/2, 1]]) ["a", "", "b"]) 1 1 = 0 :=
  ⟨⟨by decide, by decide⟩,
    ((similarity_matrix_spec (fun _ => some [[1, (1:ℚ)/2], [(1:ℚ)/2, 1]])
      ["a", "", "b"]).2.2.1 1 1 (by decide) (by decide) (by decide)).1⟩

/-- C6 counterexample: the claim says every metric key whose computation
failed is present with default value 0.  On a one-node graph with a failing
betweenness computation (modelled by the oracle returning `none`, as the
call raising at line 275), the `max_betweenness_centrality` key is absent
from the returned dict, not present with 0: the `except` at line 277 only
logs and sets no defaults. -/
theorem metrics_failed_key_absent :
    (_calculate_network_metrics { nodes := [("a", "t")], edges := [] }
        (fun _ => some 0) (fun _ => some [("a", 0)]) (fun _ => none)).lookup
      "max_betweenness_centrality" = none := by rfl

/-- C6 amended: on any metric failure the dict is still returned with every
metric that succeeded before the failure; `average_clustering` defaults to 0
when its computation fails; but the centrality keys whose computations fail
are absent rather than present with 0 (a degree-centrality failure omits
all three centrality keys, a betweenness failure omits only
`max_betweenness_centrality`, keeping the degree keys already stored). -/
theorem metrics_degradation (G : Graph) (f : Graph → Option ℚ)
    (g h : Graph → Option (List (String × ℚ))) :
    ((_calculate_network_metrics G f g h).lookup "node_count" = some (G.nodes.length : ℚ)
      ∧ (_calculate_network_metrics G f g h).lookup "edge_count" = some (G.edges.length : ℚ)
      ∧ (_calculate_network_metrics G f g h).lookup "density" = some (graph_density G)
      ∧ (_calculate_network_metrics G f g h).lookup "component_count"
          = some ((connected_components G).length : ℚ))
    ∧ (f G = none →
        (_calculate_network_metrics G f g h).lookup "average_clustering" = some 0)
    ∧ (∀ c, f G = some c →
        (_calculate_network_metrics G f g h).lookup "average_clustering" = some c)
    ∧ (0 < G.nodes.length → g G = none →
        (_calculate_network_metrics G f g h).lookup "max_degree_centrality" = none
        ∧ (_calculate_network_metrics G f g h).lookup "avg_degree_centrality" = none
        ∧ (_calculate_network_metrics G f g h).lookup "max_betweenness_centrality" = none)
    ∧ (∀ dc, 0 < G.nodes.length → g G = some dc → h G = none →
        (_calculate_network_metrics G f g h).lookup "max_degree_centrality"
          = some (if dc.isEmpty then 0 else listMaxQ (dc.map Prod.snd))
        ∧ (_calculate_network_metrics G f g h).lookup "avg_degree_centrality"
          = some (if dc.isEmpty then 0 else (dc.map Prod.snd).sum / (dc.length : ℚ))
        ∧ (_calculate_network_metrics G f g h).lookup "max_betweenness_centrality" = none)
    ∧ (∀ dc bc, 0 < G.nodes.length → g G = some dc → h G = some bc →
        (_calculate_network_metrics G f g h).lookup "max_betweenness_centrality"
          = some (if bc.isEmpty then 0 else listMaxQ (bc.map Prod.snd))) := by
  unfold _calculate_network_metrics
  by_cases hn : 0 < G.nodes.length
  · rw [if_pos hn]
    cases hg : g G with
    | none =>
      cases hf : f G with
      | none =>
        refine ⟨⟨?_, ?_, ?_, ?_⟩, fun _ => ?_, ?_, fun _ _ => ⟨?_, ?_, ?_⟩, ?_, ?_⟩
          <;> simp_all [List.lookup]
      | some c =>
        refine ⟨⟨?_, ?_, ?_, ?_⟩, ?_, ?_, fun _ _ => ⟨?_, ?_, ?_⟩, ?_, ?_⟩
          <;> simp_all [List.lookup]
    | some dc =>
      cases hh : h G with
      | none =>
        cases hf : f G with
        | none =>
          refine ⟨⟨?_, ?_, ?_, ?_⟩, fun _ => ?_, ?_, ?_, ?_, ?_⟩
            <;> simp_all [List.lookup]
        | some c =>
          refine ⟨⟨?_, ?_, ?_, ?_⟩, ?_, ?_, ?_, ?_, ?_⟩
            <;> simp_all [List.lookup]
      | some bc =>
        cases hf : f G with
        | none =>
          refine ⟨⟨?_, ?_, ?_, ?_⟩, fun _ => ?_, ?_, ?_, ?_, ?_⟩
            <;> simp_all [List.lookup]
        | some c =>
          refine ⟨⟨?_, ?_, ?_, ?_⟩, ?_, ?_, ?_, ?_, ?_⟩
            <;> simp_all [List.lookup]
  · rw [if_neg hn]
    cases hf : f G with
    | none =>
      refine ⟨⟨?_, ?_, ?_, ?_⟩, fun _ => ?_, ?_, fun hpos => absurd hpos hn,
        fun _ hpos => absurd hpos hn, fun _ _ hpos => absurd hpos hn⟩
        <;> simp_all [List.lookup]
    | some c =>
      refine ⟨⟨?_, ?_, ?_, ?_⟩, ?_, ?_, fun hpos => absurd hpos hn,
        fun _ hpos => absurd hpos hn, fun _ _ hpos => absurd hpos hn⟩
        <;> simp_all [List.lookup]

/-- Witness for `metrics_degradation` on a concrete one-node graph with a
failing betweenness oracle: the degree keys that succeeded are present, the
failed betweenness key is absent. -/
theorem metrics_degradation_witness :
    (_calculate_network_metrics { nodes := [("a", "t")], edges := [] }
        (fun _ => none) (fun _ => some [("a", 0)]) (fun _ => none)).lookup
      "average_clustering" = some 0
    ∧ (_calculate_network_metrics { nodes := [("a", "t")], edges := [] }
        (fun _ => none) (fun _ => some [("a", 0)]) (fun _ => none)).lookup
      "avg_degree_centrality" = some (if ([("a", (0:ℚ))]).isEmpty then 0
        else ([("a", (0:ℚ))].map Prod.snd).sum / (([("a", (0:ℚ))]).length : ℚ)) := by
  have H := metrics_degradation { nodes := [("a", "t")], edges := [] }
    (fun _ => none) (fun _ => some [("a", 0)]) (fun _ => none)
  exact ⟨H.2.1 rfl, (H.2.2.2.2.1 [("a", 0)] (by decide) rfl rfl).2.1⟩

/-- C8: whenever more than 3 topics exist, `_generate_network_insights`
appends, directly after the sentence naming the top 3 topics, one further
insight sentence listing the names of the remaining topics beyond the top 3
(the additional-topics branch of lines 468-469, with the sentence's list
modelled from the spec because line 469 is a SyntaxError in the source). -/
theorem additional_topics_insight (G : Graph) (videos : List Video)
    (topics : List NetTopic) (central_videos : List CentralVideo)
    (clusters : List Cluster) (h : 3 < topics.length) :
    ∃ pre, _generate_network_insights G videos topics central_videos clusters =
      pre ++ ["The most common topics across the content network are " ++
                quoteJoin ((topics.take 3).map (fun t => t.name)) ++ ".",
              "Additional topics include " ++
                quoteJoin ((topics.drop 3).map (fun t => t.name)) ++ "."] := by
  have hne : topics.isEmpty = false := by
    cases topics with
    | nil => simp at h
    | cons a l => rfl
  refine ⟨sizeInsights G clusters ++ centralInsights central_videos, ?_⟩
  unfold _generate_network_insights topicInsights
  simp only [hne, Bool.false_eq_true, if_false, if_pos h]
  simp [List.append_assoc]

/-- Witness for `additional_topics_insight` at a concrete 4-topic input. -/
theorem additional_topics_insight_witness :
    ∃ pre, _generate_network_insights {} []
        [⟨"t1", 1, 1, []⟩, ⟨"t2", 1, 1, []⟩, ⟨"t3", 1, 1, []⟩, ⟨"t4", 1, 1, []⟩] [] [] =
      pre ++ ["The most common topics across the content network are " ++
                quoteJoin ["t1", "t2", "t3"] ++ ".",
              "Additional topics include " ++ quoteJoin ["t4"] ++ "."] :=
  additional_topics_insight {} []
    [⟨"t1", 1, 1, []⟩, ⟨"t2", 1, 1, []⟩, ⟨"t3", 1, 1, []⟩, ⟨"t4", 1, 1, []⟩] [] []
    (by decide)

theorem nodup_keys_mem_unique {α β : Type*} {l : List (α × β)}
    (h : (l.map Prod.fst).Nodup) {a : α} {b₁ b₂ : β}
    (h₁ : (a, b₁) ∈ l) (h₂ : (a, b₂) ∈ l) : b₁ = b₂ := by
  induction l with
  | nil => cases h₁
  | cons p rest ih =>
    simp only [List.map_cons, List.nodup_cons] at h
    rcases List.mem_cons.mp h₁ with heq₁ | h₁'
    · rcases List.mem_cons.mp h₂ with heq₂ | h₂'
      · exact (Prod.ext_iff.mp (heq₁.trans heq₂.symm)).2
      · exfalso
        apply h.1
        rw [← heq₁]
        exact List.mem_map.mpr ⟨(a, b₂), h₂', rfl⟩
    · rcases List.mem_cons.mp h₂ with heq₂ | h₂'
      · exfalso
        apply h.1
        rw [← heq₂]
        exact List.mem_map.mpr ⟨(a, b₁), h₁', rfl⟩
      · exact ih h.2 h₁' h₂'

theorem topic_metrics_keys_sublist (evo : List (String × List Appearance)) :
    ((topic_metrics evo).map Prod.fst).Sublist (evo.map Prod.fst) := by
  induction evo with
  | nil => simp [topic_metrics]
  | cons pr rest ih =>
    rw [topic_metrics, List.filterMap_cons]
    by_cases hl : pr.2.length < 2
    · rw [if_pos hl]
      exact List.Sublist.cons _ ih
    · rw [if_neg hl]
      simp only [List.map_cons]
      exact List.Sublist.cons₂ _ ih

theorem mem_topic_metrics_of {evo : List (String × List Appearance)}
    {t : String} {apps : List Appearance}
    (h : (t, apps) ∈ evo) (h2 : ¬apps.length < 2) :
    (t, metricFor apps) ∈ topic_metrics evo :=
  List.mem_filterMap.mpr ⟨(t, apps), h, by simp [h2]⟩

theorem of_mem_topic_metrics {evo : List (String × List Appearance)}
    {t : String} {m : TopicMetric} (h : (t, m) ∈ topic_metrics evo) :
    ∃ apps, (t, apps) ∈ evo ∧ ¬apps.length < 2 ∧ m = metricFor apps := by
  obtain ⟨⟨t', apps⟩, hmem, heq⟩ := List.mem_filterMap.mp h
  by_cases hl : apps.length < 2
  · simp [hl] at heq
  · simp only [hl, if_false, Option.some.injEq, Prod.mk.injEq] at heq
    exact ⟨apps, heq.1 ▸ hmem, hl, heq.2.symm⟩

theorem length_sortAppearances (apps : List Appearance) :
    (sortAppearances apps).length = apps.length := length_sortBy _ _

theorem metricFor_slope_of_two {apps : List Appearance} (h : apps.length = 2) :
    (metricFor apps).trend_slope = 0 := by
  have hlen : (sortAppearances apps).length = 2 := by
    rw [length_sortAppearances, h]
  simp [metricFor, hlen]

theorem metricFor_slope_of_three {apps : List Appearance} (h : 3 ≤ apps.length) :
    (metricFor apps).trend_slope
      = slopeOf ((sortAppearances apps).map (fun a => a.confidence)) := by
  have hlen : 3 ≤ (sortAppearances apps).length := by
    rw [length_sortAppearances]
    exact h
  simp [metricFor, hlen]

/-- C4: in `_identify_topic_trends`, a topic with fewer than 2 appearances
is absent from all three trend lists; a topic with exactly 2 appearances
gets trend_slope 0 and is classified stable; a topic with at least 3
appearances gets the least-squares slope of its (date-sorted) confidences
against indices 0..k-1 and is trending iff slope > 0.5, declining iff
slope < -0.5, stable otherwise; and concretely the confidence sequences
[10,30,50,70,90], [90,70,50,30,10] and [50,50,50,50] are classified
trending, declining and stable respectively. -/
theorem topic_trend_classification (evo : List (String × List Appearance))
    (hN : (evo.map Prod.fst).Nodup) (t : String) (apps : List Appearance)
    (hmem : (t, apps) ∈ evo) :
    ((∃ tr, _identify_topic_trends evo = some tr)
    ∧ ∀ tr, _identify_topic_trends evo = some tr →
      (apps.length < 2 → t ∉ tr.trending ∧ t ∉ tr.declining ∧ t ∉ tr.stable)
      ∧ (apps.length = 2 → (t, metricFor apps) ∈ topic_metrics evo
          ∧ (metricFor apps).trend_slope = 0
          ∧ t ∈ tr.stable ∧ t ∉ tr.trending ∧ t ∉ tr.declining)
      ∧ (3 ≤ apps.length → (t, metricFor apps) ∈ topic_metrics evo
          ∧ (metricFor apps).trend_slope
              = slopeOf ((sortAppearances apps).map (fun a => a.confidence))
          ∧ (t ∈ tr.trending ↔ (1:ℚ)/2 < (metricFor apps).trend_slope)
          ∧ (t ∈ tr.declining ↔ (metricFor apps).trend_slope < -((1:ℚ)/2))
          ∧ (t ∈ tr.stable ↔ ¬((1:ℚ)/2 < (metricFor apps).trend_slope)
              ∧ ¬((metricFor apps).trend_slope < -((1:ℚ)/2)))))
    ∧ _identify_topic_trends [("t", [⟨"v1", "T", "a", 10⟩, ⟨"v2", "T", "b", 30⟩,
        ⟨"v3", "T", "c", 50⟩, ⟨"v4", "T", "d", 70⟩, ⟨"v5", "T", "e", 90⟩])]
        = some ⟨["t"], [], []⟩
    ∧ _identify_topic_trends [("t", [⟨"v1", "T", "a", 90⟩, ⟨"v2", "T", "b", 70⟩,
        ⟨"v3", "T", "c", 50⟩, ⟨"v4", "T", "d", 30⟩, ⟨"v5", "T", "e", 10⟩])]
        = some ⟨[], ["t"], []⟩
    ∧ _identify_topic_trends [("t", [⟨"v1", "T", "a", 50⟩, ⟨"v2", "T", "b", 50⟩,
        ⟨"v3", "T", "c", 50⟩, ⟨"v4", "T", "d", 50⟩])]
        = some ⟨[], [], ["t"]⟩ := by
  refine ⟨⟨?_, ?_⟩, by with_unfolding_all decide, by with_unfolding_all decide,
    by with_unfolding_all decide⟩
  · have hne : evo.isEmpty = false := by
      cases evo with
      | nil => cases hmem
      | cons a l => rfl
    rw [_identify_topic_trends, hne]
    exact ⟨_, rfl⟩
  intro tr htr
  have hne : evo.isEmpty = false := by
    cases evo with
    | nil => cases hmem
    | cons a l => rfl
  rw [_identify_topic_trends, hne] at htr
  simp only [Bool.false_eq_true, if_false, Option.some.injEq] at htr
  subst htr
  have key : ∀ m, (t, m) ∈ topic_metrics evo → ¬apps.length < 2 ∧ m = metricFor apps := by
    intro m hm
    obtain ⟨apps', h1, h2, h3⟩ := of_mem_topic_metrics hm
    have : apps = apps' := nodup_keys_mem_unique hN hmem h1
    subst this
    exact ⟨h2, h3⟩
  have mem_iff : ∀ (p : String × TopicMetric → Bool), ¬apps.length < 2 →
      (t ∈ ((topic_metrics evo).filter p).map Prod.fst ↔ p (t, metricFor apps) = true) := by
    intro p hge
    constructor
    · intro hmm
      obtain ⟨⟨t', m⟩, hf, hfst⟩ := List.mem_map.mp hmm
      obtain ⟨hin, hp⟩ := List.mem_filter.mp hf
      rcases hfst
      obtain ⟨-, rfl⟩ := key _ hin
      exact hp
    · intro hp
      exact List.mem_map.mpr
        ⟨(t, metricFor apps), List.mem_filter.mpr ⟨mem_topic_metrics_of hmem hge, hp⟩, rfl⟩
  have notmem : apps.length < 2 →
      ∀ (p : String × TopicMetric → Bool), t ∉ ((topic_metrics evo).filter p).map Prod.fst := by
    intro hlt p hmm
    obtain ⟨⟨t', m⟩, hf, hfst⟩ := List.mem_map.mp hmm
    obtain ⟨hin, -⟩ := List.mem_filter.mp hf
    rcases hfst
    exact (key _ hin).1 hlt
  refine ⟨fun hlt => ⟨notmem hlt _, notmem hlt _, notmem hlt _⟩, fun h2 => ?_, fun h3 => ?_⟩
  · have hge : ¬apps.length < 2 := by omega
    have hs := metricFor_slope_of_two h2
    refine ⟨mem_topic_metrics_of hmem hge, hs, ?_, ?_, ?_⟩
    · rw [mem_iff _ hge]
      simp [hs]
    · rw [mem_iff _ hge]
      simp [hs]
    · rw [mem_iff _ hge]
      simp [hs]
  · have hge : ¬apps.length < 2 := by omega
    refine ⟨mem_topic_metrics_of hmem hge, metricFor_slope_of_three h3, ?_, ?_, ?_⟩
    · rw [mem_iff _ hge]
      simp
    · rw [mem_iff _ hge]
      simp
    · rw [mem_iff _ hge]
      simp

/-- Witness for `topic_trend_classification` at a concrete one-topic
evolution with two appearances: the topic is classified stable with
slope 0. -/
theorem topic_trend_classification_witness :
    ∃ tr, _identify_topic_trends
        [("t", [⟨"v1", "T", "a", 10⟩, ⟨"v2", "T", "b", 90⟩])] = some tr
      ∧ "t" ∈ tr.stable ∧ "t" ∉ tr.trending ∧ "t" ∉ tr.declining := by
  have H := topic_trend_classification
    [("t", [⟨"v1", "T", "a", 10⟩, ⟨"v2", "T", "b", 90⟩])] (by decide) "t"
    [⟨"v1", "T", "a", 10⟩, ⟨"v2", "T", "b", 90⟩] (by decide)
  obtain ⟨⟨⟨tr, htr⟩, hall⟩, -⟩ := H
  obtain ⟨-, -, hst, hntr, hnd⟩ := (hall tr htr).2.1 rfl
  exact ⟨tr, htr, hst, hntr, hnd⟩

theorem mem_pairsBelow {n : Nat} {p : Nat × Nat} :
    p ∈ pairsBelow n ↔ p.1 < p.2 ∧ p.2 < n := by
  obtain ⟨i, j⟩ := p
  simp only [pairsBelow, List.mem_flatMap, List.mem_map, List.mem_filter, List.mem_range,
    Prod.mk.injEq, decide_eq_true_eq]
  constructor
  · rintro ⟨a, ha, b, ⟨hb, hab⟩, rfl, rfl⟩
    exact ⟨hab, hb⟩
  · rintro ⟨hij, hj⟩
    exact ⟨i, by omega, j, ⟨hj, hij⟩, rfl, rfl⟩

theorem addEdge_nodes (G : Graph) (u v : String) (w : ℚ) :
    (G.addEdge u v w).nodes = G.nodes := by
  unfold Graph.addEdge
  split <;> rfl

theorem addNode_edges (G : Graph) (id t : String) :
    (G.addNode id t).edges = G.edges := by
  unfold Graph.addNode
  split <;> rfl

theorem edgeStep_nodes (M : List (List ℚ)) (ids : List String) (th : ℚ)
    (G : Graph) (p : Nat × Nat) : (edgeStep M ids th G p).nodes = G.nodes := by
  simp only [edgeStep]
  split
  · exact addEdge_nodes _ _ _ _
  · rfl

theorem foldl_edgeStep_nodes (M : List (List ℚ)) (ids : List String) (th : ℚ)
    (P : List (Nat × Nat)) (G : Graph) :
    (P.foldl (edgeStep M ids th) G).nodes = G.nodes := by
  induction P generalizing G with
  | nil => rfl
  | cons p rest ih => rw [List.foldl_cons, ih, edgeStep_nodes]

theorem addNodes_edges (ps : List (String × String)) (acc : Graph) :
    (addNodes ps acc).edges = acc.edges := by
  induction ps generalizing acc with
  | nil => rfl
  | cons p rest ih =>
    show (addNodes rest (acc.addNode p.1 p.2)).edges = acc.edges
    rw [ih, addNode_edges]

theorem any_fst_beq_eq_false {nodes : List (String × String)} {id : String} :
    nodes.any (fun p => p.1 == id) = false ↔ id ∉ nodes.map Prod.fst := by
  rw [List.any_eq_false]
  constructor
  · intro h hmem
    obtain ⟨p, hp, hfst⟩ := List.mem_map.mp hmem
    exact h p hp (by simp [hfst])
  · intro h p hp hbeq
    rw [beq_iff_eq] at hbeq
    exact h (List.mem_map.mpr ⟨p, hp, hbeq⟩)

theorem addNodes_nodes_of_nodup (ps : List (String × String)) (acc : Graph)
    (hN : (ps.map Prod.fst).Nodup)
    (hdisj : ∀ p ∈ ps, p.1 ∉ acc.nodes.map Prod.fst) :
    (addNodes ps acc).nodes = acc.nodes ++ ps := by
  induction ps generalizing acc with
  | nil => simp [addNodes]
  | cons p rest ih =>
    have hnotin : p.1 ∉ acc.nodes.map Prod.fst := hdisj p (List.mem_cons_self p rest)
    have hany : acc.nodes.any (fun q => q.1 == p.1) = false :=
      any_fst_beq_eq_false.mpr hnotin
    have hstep : acc.addNode p.1 p.2 = { acc with nodes := acc.nodes ++ [p] } := by
      simp [Graph.addNode, hany]
    simp only [List.map_cons, List.nodup_cons] at hN
    have hih := ih { acc with nodes := acc.nodes ++ [p] } hN.2 ?_
    · show (addNodes rest (acc.addNode p.1 p.2)).nodes = acc.nodes ++ p :: rest
      rw [hstep, hih, List.append_assoc]
      rfl
    · intro q hq
      simp only [List.map_append, List.mem_append, List.map_cons, List.map_nil]
      rintro (hin | hin)
      · exact hdisj q (List.mem_cons_of_mem p hq) hin
      · simp only [List.mem_singleton] at hin
        exact hN.1 (hin ▸ List.mem_map.mpr ⟨q, hq, rfl⟩)

theorem nodup_getD_inj (ids : List String) (h : ids.Nodup) {i j : Nat}
    (hi : i < ids.length) (hj : j < ids.length)
    (heq : ids.getD i "" = ids.getD j "") : i = j := by
  rw [List.getD_eq_getElem _ _ hi, List.getD_eq_getElem _ _ hj] at heq
  exact (List.Nodup.getElem_inj_iff h).mp heq

theorem sameEnds_eq (e : String × String × ℚ) (u v : String) :
    sameEnds e u v = true ↔ (e.1 = u ∧ e.2.1 = v) ∨ (e.1 = v ∧ e.2.1 = u) := by
  simp [sameEnds]

theorem edges_sound (M : List (List ℚ)) (ids : List String) (th : ℚ)
    (P : List (Nat × Nat)) (hP : ∀ p ∈ P, p.1 < p.2 ∧ p.2 < ids.length)
    (G : Graph)
    (hG : ∀ e ∈ G.edges, ∃ i j, i < j ∧ j < ids.length ∧ th ≤ mget M i j ∧
      e.2.2 = mget M i j ∧ ((e.1 = ids.getD i "" ∧ e.2.1 = ids.getD j "")
        ∨ (e.1 = ids.getD j "" ∧ e.2.1 = ids.getD i ""))) :
    ∀ e ∈ (P.foldl (edgeStep M ids th) G).edges, ∃ i j, i < j ∧ j < ids.length ∧
      th ≤ mget M i j ∧ e.2.2 = mget M i j ∧
      ((e.1 = ids.getD i "" ∧ e.2.1 = ids.getD j "")
        ∨ (e.1 = ids.getD j "" ∧ e.2.1 = ids.getD i "")) := by
  induction P generalizing G with
  | nil => exact hG
  | cons p rest ih =>
    rw [List.foldl_cons]
    refine ih (fun q hq => hP q (List.mem_cons_of_mem p hq)) _ ?_
    obtain ⟨hplt, hpn⟩ := hP p (List.mem_cons_self p rest)
    intro e he
    unfold edgeStep at he
    by_cases hth : th ≤ mget M p.1 p.2
    · rw [if_pos hth] at he
      unfold Graph.addEdge at he
      by_cases hany : G.edges.any (fun e => sameEnds e (ids.getD p.1 "") (ids.getD p.2 "")) = true
      · rw [if_pos hany] at he
        simp only [List.mem_map] at he
        obtain ⟨e', he', heq⟩ := he
        by_cases hse : sameEnds e' (ids.getD p.1 "") (ids.getD p.2 "") = true
        · rw [if_pos hse] at heq
          subst heq
          rcases (sameEnds_eq e' _ _).mp hse with ⟨h1, h2⟩ | ⟨h1, h2⟩
          · exact ⟨p.1, p.2, hplt, hpn, hth, rfl, Or.inl ⟨h1, h2⟩⟩
          · exact ⟨p.1, p.2, hplt, hpn, hth, rfl, Or.inr ⟨h1, h2⟩⟩
        · rw [if_neg hse] at heq
          subst heq
          exact hG e' he'
      · rw [if_neg hany] at he
        rcases List.mem_append.mp he with hold | hnew
        · exact hG e hold
        · simp only [List.mem_singleton] at hnew
          subst hnew
          exact ⟨p.1, p.2, hplt, hpn, hth, rfl, Or.inl ⟨rfl, rfl⟩⟩
    · rw [if_neg hth] at he
      exact hG e he

theorem hasEdge_addEdge_mono (G : Graph) (u v w a b) (h : G.hasEdge a b = true) :
    (G.addEdge u v w).hasEdge a b = true := by
  unfold Graph.hasEdge at h ⊢
  unfold Graph.addEdge
  rw [List.any_eq_true] at h
  obtain ⟨e, he, hse⟩ := h
  split
  · rw [List.any_eq_true]
    by_cases hs : sameEnds e u v = true
    · exact ⟨(e.1, e.2.1, w), List.mem_map.mpr ⟨e, he, by rw [if_pos hs]⟩, hse⟩
    · exact ⟨e, List.mem_map.mpr ⟨e, he, by rw [if_neg hs]⟩, hse⟩
  · rw [List.any_eq_true]
    exact ⟨e, List.mem_append_left _ he, hse⟩

theorem hasEdge_addEdge_self (G : Graph) (u v : String) (w : ℚ) :
    (G.addEdge u v w).hasEdge u v = true := by
  unfold Graph.hasEdge Graph.addEdge
  by_cases hany : G.edges.any (fun e => sameEnds e u v) = true
  · rw [if_pos hany]
    rw [List.any_eq_true] at hany ⊢
    obtain ⟨e, he, hse⟩ := hany
    exact ⟨(e.1, e.2.1, w), List.mem_map.mpr ⟨e, he, by rw [if_pos hse]⟩, hse⟩
  · rw [if_neg hany]
    rw [List.any_eq_true]
    refine ⟨(u, v, w), List.mem_append_right _ (List.mem_singleton_self _), ?_⟩
    simp [sameEnds]

theorem foldl_edgeStep_hasEdge_mono (M : List (List ℚ)) (ids : List String) (th : ℚ)
    (P : List (Nat × Nat)) (G : Graph) (a b : String) (h : G.hasEdge a b = true) :
    (P.foldl (edgeStep M ids th) G).hasEdge a b = true := by
  induction P generalizing G with
  | nil => exact h
  | cons p rest ih =>
    rw [List.foldl_cons]
    refine ih _ ?_
    simp only [edgeStep]
    split
    · exact hasEdge_addEdge_mono _ _ _ _ _ _ h
    · exact h

theorem edges_complete (M : List (List ℚ)) (ids : List String) (th : ℚ)
    (P : List (Nat × Nat)) (G : Graph) :
    ∀ i j, (i, j) ∈ P → th ≤ mget M i j →
      (P.foldl (edgeStep M ids th) G).hasEdge (ids.getD i "") (ids.getD j "") = true := by
  induction P generalizing G with
  | nil => intro i j h; cases h
  | cons p rest ih =>
    intro i j hmem hth
    rw [List.foldl_cons]
    rcases List.mem_cons.mp hmem with heq | hmem'
    · subst heq
      refine foldl_edgeStep_hasEdge_mono _ _ _ _ _ _ _ ?_
      unfold edgeStep
      rw [if_pos hth]
      exact hasEdge_addEdge_self _ _ _ _
    · exact ih _ i j hmem' hth

/-- C2 (amended with duplicate-free ids): the graph `_create_graph` builds
has node list exactly the given ids (with their titles; isolated nodes
retained), no self-loops, every edge's weight at least the threshold, an
edge between ids[i] and ids[j] (i < j) precisely when matrix[i][j] is at
least the threshold with that entry as its weight, and the construction
never reads a diagonal matrix entry. -/
theorem create_graph_spec (M : List (List ℚ)) (ids titles : List String) (th : ℚ)
    (hN : ids.Nodup) (hlen : titles.length = ids.length) :
    ((_create_graph M ids titles th).nodes = ids.zip titles
      ∧ (_create_graph M ids titles th).nodes.map Prod.fst = ids)
    ∧ (∀ e ∈ (_create_graph M ids titles th).edges, e.1 ≠ e.2.1)
    ∧ (∀ e ∈ (_create_graph M ids titles th).edges, th ≤ e.2.2)
    ∧ (∀ i j, i < j → j < ids.length →
        ((_create_graph M ids titles th).hasEdge (ids.getD i "") (ids.getD j "") = true
          ↔ th ≤ mget M i j))
    ∧ (∀ i j, i < j → j < ids.length → ∀ e ∈ (_create_graph M ids titles th).edges,
        sameEnds e (ids.getD i "") (ids.getD j "") = true → e.2.2 = mget M i j)
    ∧ (∀ M', (∀ i j, i ≠ j → mget M i j = mget M' i j) →
        _create_graph M ids titles th = _create_graph M' ids titles th) := by
  have hzipN : ((ids.zip titles).map Prod.fst).Nodup := by
    rw [List.map_fst_zip ids titles (le_of_eq hlen.symm)]
    exact hN
  have hnodes : (_create_graph M ids titles th).nodes = ids.zip titles := by
    rw [_create_graph, foldl_edgeStep_nodes,
      addNodes_nodes_of_nodup _ _ hzipN (by intro p _ h; cases h)]
    rfl
  have hedges0 : (addNodes (ids.zip titles) {}).edges = [] := by
    rw [addNodes_edges]
  have hsound := edges_sound M ids th (pairsBelow ids.length)
    (fun p hp => mem_pairsBelow.mp hp) (addNodes (ids.zip titles) {})
    (by rw [hedges0]; intro e he; cases he)
  rw [← _create_graph] at hsound
  refine ⟨⟨hnodes, by rw [hnodes]; exact List.map_fst_zip ids titles (le_of_eq hlen.symm)⟩,
    ?_, ?_, ?_, ?_, ?_⟩
  · intro e he
    obtain ⟨i, j, hij, hjn, -, -, hends⟩ := hsound e he
    have hne : ids.getD i "" ≠ ids.getD j "" := fun hc =>
      absurd (nodup_getD_inj ids hN (lt_trans hij hjn) hjn hc) (Nat.ne_of_lt hij)
    rcases hends with ⟨h1, h2⟩ | ⟨h1, h2⟩
    · rw [h1, h2]; exact hne
    · rw [h1, h2]; exact hne.symm
  · intro e he
    obtain ⟨i, j, -, -, hth, hw, -⟩ := hsound e he
    rw [hw]; exact hth
  · intro i j hij hjn
    constructor
    · intro hhe
      rw [Graph.hasEdge, List.any_eq_true] at hhe
      obtain ⟨e, he, hse⟩ := hhe
      obtain ⟨i', j', hij', hjn', hth', hw', hends'⟩ := hsound e he
      have hin : i < ids.length := lt_trans hij hjn
      have hin' : i' < ids.length := lt_trans hij' hjn'
      rcases (sameEnds_eq e _ _).mp hse with ⟨h1, h2⟩ | ⟨h1, h2⟩ <;>
        rcases hends' with ⟨h1', h2'⟩ | ⟨h1', h2'⟩
      · have hii : i' = i := nodup_getD_inj ids hN hin' hin (h1'.symm.trans h1)
        have hjj : j' = j := nodup_getD_inj ids hN hjn' hjn (h2'.symm.trans h2)
        rw [hii, hjj] at hth'; exact hth'
      · have hji : j' = i := nodup_getD_inj ids hN hjn' hin (h1'.symm.trans h1)
        have hij2 : i' = j := nodup_getD_inj ids hN hin' hjn (h2'.symm.trans h2)
        omega
      · have hij2 : i' = j := nodup_getD_inj ids hN hin' hjn (h1'.symm.trans h1)
        have hji : j' = i := nodup_getD_inj ids hN hjn' hin (h2'.symm.trans h2)
        omega
      · have hii : i' = i := nodup_getD_inj ids hN hin' hin (h2'.symm.trans h2)
        have hjj : j' = j := nodup_getD_inj ids hN hjn' hjn (h1'.symm.trans h1)
        rw [hii, hjj] at hth'; exact hth'
    · intro hth
      rw [_create_graph]
      exact edges_complete M ids th _ _ i j
        (mem_pairsBelow.mpr ⟨hij, hjn⟩) hth
  · intro i j hij hjn e he hse
    obtain ⟨i', j', hij', hjn', hth', hw', hends'⟩ := hsound e he
    have hin : i < ids.length := lt_trans hij hjn
    have hin' : i' < ids.length := lt_trans hij' hjn'
    rcases (sameEnds_eq e _ _).mp hse with ⟨h1, h2⟩ | ⟨h1, h2⟩ <;>
      rcases hends' with ⟨h1', h2'⟩ | ⟨h1', h2'⟩
    · have hii : i' = i := nodup_getD_inj ids hN hin' hin (h1'.symm.trans h1)
      have hjj : j' = j := nodup_getD_inj ids hN hjn' hjn (h2'.symm.trans h2)
      rw [hw', hii, hjj]
    · have hji : j' = i := nodup_getD_inj ids hN hjn' hin (h1'.symm.trans h1)
      have hij2 : i' = j := nodup_getD_inj ids hN hin' hjn (h2'.symm.trans h2)
      omega
    · have hij2 : i' = j := nodup_getD_inj ids hN hin' hjn (h1'.symm.trans h1)
      have hji : j' = i := nodup_getD_inj ids hN hjn' hin (h2'.symm.trans h2)
      omega
    · have hii : i' = i := nodup_getD_inj ids hN hin' hin (h2'.symm.trans h2)
      have hjj : j' = j := nodup_getD_inj ids hN hjn' hjn (h1'.symm.trans h1)
      rw [hw', hii, hjj]
  · intro M' hM
    rw [_create_graph, _create_graph]
    have : ∀ (P : List (Nat × Nat)), (∀ p ∈ P, p.1 ≠ p.2) → ∀ (G : Graph),
        P.foldl (edgeStep M ids th) G = P.foldl (edgeStep M' ids th) G := by
      intro P
      induction P with
      | nil => intro _ G; rfl
      | cons p rest ih =>
        intro hPne G
        rw [List.foldl_cons, List.foldl_cons]
        have hstep : edgeStep M ids th G p = edgeStep M' ids th G p := by
          unfold edgeStep
          rw [hM p.1 p.2 (hPne p (List.mem_cons_self p rest))]
        rw [hstep]
        exact ih (fun q hq => hPne q (List.mem_cons_of_mem p hq)) _
    exact this _ (fun p hp => Nat.ne_of_lt (mem_pairsBelow.mp hp).1) _

/-- C2 counterexample (to the claim as stated, without requiring distinct
ids): with the duplicated id list ["a", "a"], an all-ones similarity matrix
and the default threshold, `_create_graph` produces a self-loop on "a",
refuting the claim's unconditional "no self-loops". -/
theorem create_graph_selfloop_counterexample :
    ¬(∀ e ∈ (_create_graph [[1, 1], [1, 1]] ["a", "a"] ["t", "u"]
        similarity_threshold).edges, e.1 ≠ e.2.1) := by
  intro hcl
  have hmem : ("a", "a", (1 : ℚ)) ∈ (_create_graph [[1, 1], [1, 1]] ["a", "a"]
      ["t", "u"] similarity_threshold).edges := by
    with_unfolding_all decide
  exact hcl _ hmem rfl

/-- Witness for `create_graph_spec` on a concrete 2-node matrix: the edge
between the two ids exists because the off-diagonal entry meets the default
threshold. -/
theorem create_graph_spec_witness :
    (_create_graph [[1, 1], [1, 1]] ["a", "b"] ["t", "u"]
      similarity_threshold).hasEdge "a" "b" = true :=
  ((create_graph_spec [[1, 1], [1, 1]] ["a", "b"] ["t", "u"] similarity_threshold
    (by decide) (by decide)).2.2.2.1 0 1 (by decide) (by decide)).mpr
    (by with_unfolding_all decide)

theorem addToBucket_flatten_perm (bs : List (Nat × List ClusterMember)) (cid : Nat)
    (m : ClusterMember) :
    (((addToBucket bs cid m).map Prod.snd).flatten).Perm
      ((bs.map Prod.snd).flatten ++ [m]) := by
  induction bs with
  | nil => simp [addToBucket]
  | cons b rest ih =>
    obtain ⟨c, ms⟩ := b
    rw [addToBucket]
    by_cases hc : c = cid
    · rw [if_pos hc]
      simp only [List.map_cons, List.flatten_cons]
      rw [List.append_assoc, List.append_assoc]
      exact List.Perm.append_left ms List.perm_append_comm
    · rw [if_neg hc]
      simp only [List.map_cons, List.flatten_cons]
      rw [List.append_assoc]
      exact List.Perm.append_left ms ih

theorem clusterBuckets_flatten_perm (partition : List (String × Nat)) (videos : List Video) :
    ((((clusterBuckets partition videos).map Prod.snd).flatten)).Perm
      (clusterContrib partition videos) := by
  suffices h : ∀ (bs : List (Nat × List ClusterMember)), (((partition.foldl (fun bs pr =>
      match videos.find? (fun v => v.id == pr.1) with
      | some v => addToBucket bs pr.2
          ⟨pr.1, v.title.getD "Unknown", v.channel_title.getD "Unknown"⟩
      | none => bs) bs).map Prod.snd).flatten).Perm
      ((bs.map Prod.snd).flatten ++ clusterContrib partition videos) by
    simpa [clusterBuckets] using h []
  induction partition with
  | nil => intro bs; simp [clusterContrib]
  | cons pr rest ih =>
    intro bs
    rw [List.foldl_cons]
    cases hf : videos.find? (fun v => v.id == pr.1) with
    | none =>
      refine (ih _).trans ?_
      have : clusterContrib (pr :: rest) videos = clusterContrib rest videos := by
        rw [clusterContrib, List.filterMap_cons, hf]
        rfl
      rw [this]
    | some v =>
      refine (ih _).trans ?_
      have hcontrib : clusterContrib (pr :: rest) videos =
          ⟨pr.1, v.title.getD "Unknown", v.channel_title.getD "Unknown"⟩ ::
            clusterContrib rest videos := by
        rw [clusterContrib, List.filterMap_cons, hf]
        rfl
      rw [hcontrib]
      refine List.Perm.trans (List.Perm.append_right _ (addToBucket_flatten_perm bs pr.2 _)) ?_
      rw [List.append_assoc]
      exact List.Perm.refl _

theorem clusterContrib_ids (partition : List (String × Nat)) (videos : List Video)
    (hcov : ∀ pr ∈ partition, ∃ v ∈ videos, v.id = pr.1) :
    (clusterContrib partition videos).map (fun m => m.id) = partition.map Prod.fst := by
  induction partition with
  | nil => rfl
  | cons pr rest ih =>
    obtain ⟨v, hv, hid⟩ := hcov pr (List.mem_cons_self pr rest)
    have hsome : (videos.find? (fun v => v.id == pr.1)).isSome = true :=
      List.find?_isSome.mpr ⟨v, hv, by simp [hid]⟩
    obtain ⟨v', hv'⟩ := Option.isSome_iff_exists.mp hsome
    rw [clusterContrib, List.filterMap_cons, hv']
    simp only [Option.map_some']
    rw [List.map_cons]
    refine congrArg₂ _ rfl ?_
    exact ih (fun q hq => hcov q (List.mem_cons_of_mem pr hq))

theorem addToBucket_nonempty (bs : List (Nat × List ClusterMember)) (cid : Nat)
    (m : ClusterMember) (h : ∀ b ∈ bs, b.2 ≠ []) :
    ∀ b ∈ addToBucket bs cid m, b.2 ≠ [] := by
  induction bs with
  | nil =>
    intro b hb
    rw [addToBucket] at hb
    rcases List.mem_singleton.mp hb with rfl
    simp
  | cons q rest ih =>
    obtain ⟨c, ms⟩ := q
    intro b hb
    rw [addToBucket] at hb
    by_cases hc : c = cid
    · rw [if_pos hc] at hb
      rcases List.mem_cons.mp hb with rfl | hb'
      · simp
      · exact h b (List.mem_cons_of_mem _ hb')
    · rw [if_neg hc] at hb
      rcases List.mem_cons.mp hb with rfl | hb'
      · exact h (c, ms) (List.mem_cons_self _ _)
      · exact ih (fun q hq => h q (List.mem_cons_of_mem _ hq)) b hb'

theorem clusterBuckets_nonempty (partition : List (String × Nat)) (videos : List Video) :
    ∀ b ∈ clusterBuckets partition videos, b.2 ≠ [] := by
  suffices h : ∀ (bs : List (Nat × List ClusterMember)), (∀ b ∈ bs, b.2 ≠ []) →
      ∀ b ∈ (partition.foldl (fun bs pr =>
      match videos.find? (fun v => v.id == pr.1) with
      | some v => addToBucket bs pr.2
          ⟨pr.1, v.title.getD "Unknown", v.channel_title.getD "Unknown"⟩
      | none => bs) bs), b.2 ≠ [] by
    exact h [] (by intro b hb; cases hb)
  induction partition with
  | nil => intro bs h b hb; exact h b hb
  | cons pr rest ih =>
    intro bs h b hb
    rw [List.foldl_cons] at hb
    cases hf : videos.find? (fun v => v.id == pr.1) with
    | none =>
      rw [hf] at hb
      exact ih bs h b hb
    | some v =>
      rw [hf] at hb
      exact ih _ (addToBucket_nonempty bs pr.2 _ h) b hb

theorem expandStep_props (G : Graph) (allowed : List String) (u : String)
    (acc : List String) (hu : u ∈ acc) (hnd : acc.Nodup)
    (hsub : ∀ x ∈ acc, x = u ∨ x ∈ allowed) :
    u ∈ expandStep G allowed acc ∧ (expandStep G allowed acc).Nodup
      ∧ ∀ x ∈ expandStep G allowed acc, x = u ∨ x ∈ allowed := by
  refine ⟨List.mem_append_left _ hu, ?_, ?_⟩
  · rw [expandStep, List.nodup_append]
    refine ⟨hnd, List.nodup_dedup _, ?_⟩
    intro x hx hx'
    rw [List.mem_dedup, List.mem_filter] at hx'
    have := hx'.2
    simp only [Bool.and_eq_true, Bool.not_eq_true', decide_eq_false_iff_not] at this
    exact this.2 hx
  · intro x hx
    rcases List.mem_append.mp hx with hx' | hx'
    · exact hsub x hx'
    · rw [List.mem_dedup, List.mem_filter] at hx'
      have := hx'.2
      simp only [Bool.and_eq_true, decide_eq_true_eq] at this
      exact Or.inr this.1

theorem componentOf_props (G : Graph) (allowed : List String) (u : String) :
    u ∈ componentOf G allowed u ∧ (componentOf G allowed u).Nodup
      ∧ ∀ x ∈ componentOf G allowed u, x = u ∨ x ∈ allowed := by
  rw [componentOf]
  generalize G.nodes.length = n
  induction n with
  | zero =>
    refine ⟨List.mem_singleton_self u, List.nodup_singleton u, ?_⟩
    intro x hx
    exact Or.inl (List.mem_singleton.mp hx)
  | succ k ih =>
    rw [Function.iterate_succ_apply']
    obtain ⟨h1, h2, h3⟩ := ih
    exact expandStep_props G allowed u _ h1 h2 h3

theorem componentsAux_props (G : Graph) (pending : List String) :
    ∀ (visited : List String), (∀ u ∈ pending, u ∈ G.nodeIds) →
      ((componentsAux G pending visited).flatten.Nodup
        ∧ (∀ x ∈ (componentsAux G pending visited).flatten, x ∉ visited ∧ x ∈ G.nodeIds)
        ∧ (∀ x ∈ pending, x ∈ visited ∨ x ∈ (componentsAux G pending visited).flatten)) := by
  induction pending with
  | nil =>
    intro visited _
    refine ⟨by simp [componentsAux], by simp [componentsAux], ?_⟩
    intro x hx
    cases hx
  | cons u rest ih =>
    intro visited hpend
    by_cases hv : u ∈ visited
    · rw [componentsAux, if_pos hv]
      obtain ⟨h1, h2, h3⟩ := ih visited (fun q hq => hpend q (List.mem_cons_of_mem u hq))
      refine ⟨h1, h2, ?_⟩
      intro x hx
      rcases List.mem_cons.mp hx with rfl | hx'
      · exact Or.inl hv
      · exact h3 x hx'
    · rw [componentsAux, if_neg hv]
      obtain ⟨hc1, hc2, hc3⟩ := componentOf_props G
        ((G.nodeIds).filter (fun v => !decide (v ∈ visited))) u
      have hcprop : ∀ x ∈ componentOf G
          ((G.nodeIds).filter (fun v => !decide (v ∈ visited))) u,
          x ∉ visited ∧ x ∈ G.nodeIds := by
        intro x hx
        rcases hc3 x hx with rfl | hx'
        · exact ⟨hv, hpend x (List.mem_cons_self _ _)⟩
        · rw [List.mem_filter] at hx'
          have := hx'.2
          simp only [Bool.not_eq_true', decide_eq_false_iff_not] at this
          exact ⟨this, hx'.1⟩
      obtain ⟨h1, h2, h3⟩ := ih (visited ++ componentOf G
          ((G.nodeIds).filter (fun v => !decide (v ∈ visited))) u)
        (fun q hq => hpend q (List.mem_cons_of_mem u hq))
      simp only [List.flatten_cons]
      refine ⟨?_, ?_, ?_⟩
      · rw [List.nodup_append]
        refine ⟨hc2, h1, ?_⟩
        intro x hx hx'
        exact (h2 x hx').1 (List.mem_append_right _ hx)
      · intro x hx
        rcases List.mem_append.mp hx with hx' | hx'
        · exact hcprop x hx'
        · obtain ⟨hnv, hni⟩ := h2 x hx'
          exact ⟨fun hc => hnv (List.mem_append_left _ hc), hni⟩
      · intro x hx
        rcases List.mem_cons.mp hx with rfl | hx'
        · exact Or.inr (List.mem_append_left _ hc1)
        · rcases h3 x hx' with hx'' | hx''
          · rcases List.mem_append.mp hx'' with hvv | hcc
            · exact Or.inl hvv
            · exact Or.inr (List.mem_append_left _ hcc)
          · exact Or.inr (List.mem_append_right _ hx'')

theorem connected_components_flatten_perm (G : Graph)
    (hnd : (G.nodes.map Prod.fst).Nodup) :
    ((connected_components G).flatten).Perm G.nodeIds := by
  obtain ⟨h1, h2, h3⟩ := componentsAux_props G G.nodeIds [] (fun u hu => hu)
  rw [connected_components]
  refine (List.perm_ext_iff_of_nodup h1 hnd).mpr ?_
  intro a
  constructor
  · intro ha
    exact (h2 a ha).2
  · intro ha
    rcases h3 a ha with hc | hc
    · cases hc
    · exact hc

theorem fallbackPartition_keys_perm (G : Graph)
    (hnd : (G.nodes.map Prod.fst).Nodup) :
    ((fallbackPartition G).map Prod.fst).Perm (G.nodes.map Prod.fst) := by
  have heq : (fallbackPartition G).map Prod.fst = (connected_components G).flatten := by
    rw [fallbackPartition]
    simp only [List.map_flatMap, List.map_map]
    have h2 : (fun (a : Nat × List String) =>
        List.map (Prod.fst ∘ fun v => (v, a.1)) a.2) = Prod.snd := by
      funext a
      exact List.map_id' a.2
    rw [List.flatMap_def, h2, List.enum_map_snd]
  rw [heq]
  exact connected_components_flatten_perm G hnd

theorem flatMap_clusters_eq (bs : List (Nat × List ClusterMember)) :
    ((bs.map (fun b => ({ id := b.1, videos := b.2, size := b.2.length } : Cluster))).flatMap
        (fun c => c.videos.map (fun m => m.id)))
      = ((bs.map Prod.snd).flatten).map (fun m => m.id) := by
  induction bs with
  | nil => rfl
  | cons b r ih =>
    simp only [List.map_cons, List.flatMap_cons, List.flatten_cons, List.map_append]
    rw [ih]

/-- C3: for every graph whose node ids are duplicate-free, are each matched
by some input video (as at the call site, where the graph is built from the
very same video list), and for every community partition whose keys are
exactly the node ids (`best_partition`'s contract; `none` selects the
connected-components fallback, whose keys are proved to be exactly the node
ids), the cluster list `_identify_content_clusters` returns is a partition
of the node set — each node id occurs in exactly one cluster's member list
and nothing else occurs — and the clusters are sorted by size descending. -/
theorem identify_content_clusters_partition (G : Graph) (videos : List Video)
    (louvain : Option (List (String × Nat)))
    (hnd : (G.nodes.map Prod.fst).Nodup)
    (hcov : ∀ id ∈ G.nodes.map Prod.fst, ∃ v ∈ videos, v.id = id)
    (hlouvain : ∀ p, louvain = some p → (p.map Prod.fst).Perm (G.nodes.map Prod.fst)) :
    (∀ nid, (allMemberIds (_identify_content_clusters G louvain videos)).count nid
        = if nid ∈ G.nodes.map Prod.fst then 1 else 0)
    ∧ List.Sorted (fun a b : Cluster => b.size ≤ a.size)
        (_identify_content_clusters G louvain videos) := by
  have htot : ∀ a b : Cluster,
      decide (b.size ≤ a.size) = true ∨ decide (a.size ≤ b.size) = true := by
    intro a b
    rcases Nat.le_total b.size a.size with h | h
    · exact Or.inl (decide_eq_true h)
    · exact Or.inr (decide_eq_true h)
  have htr : ∀ a b c : Cluster, decide (b.size ≤ a.size) = true →
      decide (c.size ≤ b.size) = true → decide (c.size ≤ a.size) = true := by
    intro a b c h1 h2
    exact decide_eq_true (le_trans (of_decide_eq_true h2) (of_decide_eq_true h1))
  by_cases hn : G.nodes.length = 0
  · have hnil : G.nodes = [] := List.length_eq_zero.mp hn
    have hres : _identify_content_clusters G louvain videos = [] := by
      rw [_identify_content_clusters.eq_def, if_pos hn]
    rw [hres]
    constructor
    · intro nid
      rw [hnil]
      simp [allMemberIds]
    · exact List.sorted_nil
  · suffices H : ∀ (P : List (String × Nat)),
        (P.map Prod.fst).Perm (G.nodes.map Prod.fst) →
        (∀ nid, (allMemberIds (sortBy (fun a b : Cluster => decide (b.size ≤ a.size))
            (((clusterBuckets P videos).filter (fun b => !b.2.isEmpty)).map
              (fun b => { id := b.1, videos := b.2, size := b.2.length })))).count nid
          = if nid ∈ G.nodes.map Prod.fst then 1 else 0)
        ∧ List.Sorted (fun a b : Cluster => b.size ≤ a.size)
            (sortBy (fun a b : Cluster => decide (b.size ≤ a.size))
              (((clusterBuckets P videos).filter (fun b => !b.2.isEmpty)).map
                (fun b => { id := b.1, videos := b.2, size := b.2.length }))) by
      cases louvain with
      | none =>
        have hres : _identify_content_clusters G none videos =
            sortBy (fun a b : Cluster => decide (b.size ≤ a.size))
              (((clusterBuckets (fallbackPartition G) videos).filter
                (fun b => !b.2.isEmpty)).map
                (fun b => { id := b.1, videos := b.2, size := b.2.length })) := by
          rw [_identify_content_clusters.eq_def, if_neg hn]
        rw [hres]
        exact H (fallbackPartition G) (fallbackPartition_keys_perm G hnd)
      | some q =>
        have hres : _identify_content_clusters G (some q) videos =
            sortBy (fun a b : Cluster => decide (b.size ≤ a.size))
              (((clusterBuckets q videos).filter (fun b => !b.2.isEmpty)).map
                (fun b => { id := b.1, videos := b.2, size := b.2.length })) := by
          rw [_identify_content_clusters.eq_def, if_neg hn]
        rw [hres]
        exact H q (hlouvain q rfl)
    intro P hperm
    have hfilter : (clusterBuckets P videos).filter (fun b => !b.2.isEmpty)
        = clusterBuckets P videos := by
      rw [List.filter_eq_self]
      intro b hb
      have := clusterBuckets_nonempty P videos b hb
      simpa [List.isEmpty_iff] using this
    have hcovP : ∀ pr ∈ P, ∃ v ∈ videos, v.id = pr.1 := by
      intro pr hpr
      exact hcov pr.1 (hperm.mem_iff.mp (List.mem_map.mpr ⟨pr, hpr, rfl⟩))
    have hflat : (allMemberIds (sortBy (fun a b : Cluster => decide (b.size ≤ a.size))
        (((clusterBuckets P videos).filter (fun b => !b.2.isEmpty)).map
          (fun b => { id := b.1, videos := b.2, size := b.2.length })))).Perm
        (G.nodes.map Prod.fst) := by
      rw [allMemberIds, hfilter]
      refine List.Perm.trans (List.Perm.flatMap_right _ (sortBy_perm _ _)) ?_
      rw [flatMap_clusters_eq]
      refine List.Perm.trans (List.Perm.map _ (clusterBuckets_flatten_perm P videos)) ?_
      rw [clusterContrib_ids P videos hcovP]
      exact hperm
    constructor
    · intro nid
      rw [hflat.count_eq]
      by_cases hmem : nid ∈ G.nodes.map Prod.fst
      · rw [if_pos hmem]
        exact List.count_eq_one_of_mem hnd hmem
      · rw [if_neg hmem]
        exact List.count_eq_zero_of_not_mem hmem
    · exact (sortBy_sorted htot htr _).imp (fun h => of_decide_eq_true h)

/-- Witness for `identify_content_clusters_partition` on a concrete 3-node
graph (one edge, one isolated node) with the connected-components fallback:
each node id is counted exactly once across the clusters and the cluster
list is size-sorted. -/
theorem identify_content_clusters_partition_witness :
    ((allMemberIds (_identify_content_clusters
        ⟨[("a", "t"), ("b", "u"), ("c", "v")], [("a", "b", 1)]⟩ none
        [{ id := "a" }, { id := "b" }, { id := "c" }])).count "a" = 1
      ∧ (allMemberIds (_identify_content_clusters
        ⟨[("a", "t"), ("b", "u"), ("c", "v")], [("a", "b", 1)]⟩ none
        [{ id := "a" }, { id := "b" }, { id := "c" }])).count "d" = 0)
    ∧ List.Sorted (fun a b : Cluster => b.size ≤ a.size)
        (_identify_content_clusters
          ⟨[("a", "t"), ("b", "u"), ("c", "v")], [("a", "b", 1)]⟩ none
          [{ id := "a" }, { id := "b" }, { id := "c" }]) := by
  have H := identify_content_clusters_partition
    ⟨[("a", "t"), ("b", "u"), ("c", "v")], [("a", "b", 1)]⟩
    [{ id := "a" }, { id := "b" }, { id := "c" }] none
    (by decide) (by decide) (fun p h => nomatch h)
  refine ⟨⟨?_, ?_⟩, H.2⟩
  · have := H.1 "a"
    simpa using this
  · have := H.1 "d"
    simpa using this

theorem addNode_map_fst (G : Graph) (id t : String) :
    (G.addNode id t).nodes.map Prod.fst =
      if id ∈ G.nodes.map Prod.fst then G.nodes.map Prod.fst
      else G.nodes.map Prod.fst ++ [id] := by
  by_cases h : id ∈ G.nodes.map Prod.fst
  · rw [if_pos h]
    have hany : G.nodes.any (fun p => p.1 == id) = true := by
      obtain ⟨p, hp, hfst⟩ := List.mem_map.mp h
      rw [List.any_eq_true]
      exact ⟨p, hp, by simp [hfst]⟩
    rw [Graph.addNode, if_pos hany]
    rw [List.map_map]
    refine List.map_congr_left ?_
    intro p _
    by_cases hb : (p.1 == id) = true
    · simp only [Function.comp, hb, if_true]
      exact (beq_iff_eq.mp hb).symm
    · simp only [Function.comp, if_neg hb]
  · rw [if_neg h]
    have hany : G.nodes.any (fun p => p.1 == id) = false := any_fst_beq_eq_false.mpr h
    rw [Graph.addNode, hany]
    simp

theorem addNodes_map_fst_nodup (ps : List (String × String)) (acc : Graph)
    (hacc : (acc.nodes.map Prod.fst).Nodup) :
    ((addNodes ps acc).nodes.map Prod.fst).Nodup := by
  induction ps generalizing acc with
  | nil => exact hacc
  | cons p rest ih =>
    show ((addNodes rest (acc.addNode p.1 p.2)).nodes.map Prod.fst).Nodup
    refine ih _ ?_
    rw [addNode_map_fst]
    split
    · exact hacc
    · rw [List.nodup_append]
      refine ⟨hacc, List.nodup_singleton _, ?_⟩
      intro x hx hx'
      rw [List.mem_singleton] at hx'
      subst hx'
      exact (by assumption : p.1 ∉ acc.nodes.map Prod.fst) hx

theorem mem_addNodes_map_fst (ps : List (String × String)) (acc : Graph) (x : String) :
    x ∈ (addNodes ps acc).nodes.map Prod.fst
      ↔ x ∈ acc.nodes.map Prod.fst ∨ x ∈ ps.map Prod.fst := by
  induction ps generalizing acc with
  | nil => simp [addNodes]
  | cons p rest ih =>
    show x ∈ (addNodes rest (acc.addNode p.1 p.2)).nodes.map Prod.fst ↔ _
    rw [ih]
    rw [addNode_map_fst]
    by_cases h : p.1 ∈ acc.nodes.map Prod.fst
    · rw [if_pos h]
      simp only [List.map_cons, List.mem_cons]
      constructor
      · rintro (hx | hx)
        · exact Or.inl hx
        · exact Or.inr (Or.inr hx)
      · rintro (hx | rfl | hx)
        · exact Or.inl hx
        · exact Or.inl h
        · exact Or.inr hx
    · rw [if_neg h]
      simp only [List.mem_append, List.mem_singleton, List.map_cons, List.mem_cons]
      tauto

theorem dedup_length_lt {l : List String} (h : ¬l.Nodup) :
    l.dedup.length < l.length := by
  have hle := (List.dedup_sublist l).length_le
  rcases lt_or_eq_of_le hle with hlt | heq
  · exact hlt
  · exfalso
    exact h ((List.dedup_sublist l).eq_of_length heq ▸ List.nodup_dedup l)

theorem find?_update_ne (ns : List (String × String)) (id t d : String) (hne : d ≠ id) :
    (ns.map (fun p => if p.1 == id then (id, t) else p)).find? (fun p => p.1 == d)
      = ns.find? (fun p => p.1 == d) := by
  induction ns with
  | nil => rfl
  | cons p rest ih =>
    rw [List.map_cons]
    by_cases hp1 : (p.1 == id) = true
    · rw [if_pos hp1]
      have hidd : ((id, t).1 == d) = false := by
        simp only [beq_eq_false_iff_ne, ne_eq]
        exact fun hc => hne (hc.symm)
      have hpd : (p.1 == d) = false := by
        rw [beq_iff_eq] at hp1
        simp only [beq_eq_false_iff_ne, ne_eq, hp1]
        exact fun hc => hne (hc.symm)
      rw [List.find?_cons_of_neg _ (by simp [hidd]), List.find?_cons_of_neg _ (by simp [hpd])]
      exact ih
    · rw [if_neg hp1]
      by_cases hpd : (p.1 == d) = true
      · rw [@List.find?_cons_of_pos _ (fun q => q.1 == d) p
            (rest.map (fun p => if p.1 == id then (id, t) else p)) hpd,
          @List.find?_cons_of_pos _ (fun q => q.1 == d) p rest hpd]
      · rw [@List.find?_cons_of_neg _ (fun q => q.1 == d) p
            (rest.map (fun p => if p.1 == id then (id, t) else p)) hpd,
          @List.find?_cons_of_neg _ (fun q => q.1 == d) p rest hpd]
        exact ih

theorem find?_update_self (ns : List (String × String)) (id t : String)
    (hmem : id ∈ ns.map Prod.fst) :
    (ns.map (fun p => if p.1 == id then (id, t) else p)).find? (fun p => p.1 == id)
      = some (id, t) := by
  induction ns with
  | nil => cases hmem
  | cons p rest ih =>
    rw [List.map_cons]
    by_cases hp1 : (p.1 == id) = true
    · rw [if_pos hp1]
      exact List.find?_cons_of_pos _ (by simp)
    · rw [if_neg hp1]
      rw [@List.find?_cons_of_neg _ (fun q => q.1 == id) p
          (rest.map (fun p => if p.1 == id then (id, t) else p)) hp1]
      refine ih ?_
      rw [List.map_cons] at hmem
      rcases List.mem_cons.mp hmem with heq | hmem'
      · exact absurd (by simp [heq]) hp1
      · exact hmem'

theorem nodeTitle_addNode (G : Graph) (id t d : String) :
    nodeTitle (G.addNode id t) d = if d = id then some t else nodeTitle G d := by
  by_cases hmem : id ∈ G.nodes.map Prod.fst
  · have hany : G.nodes.any (fun p => p.1 == id) = true := by
      obtain ⟨p, hp, hfst⟩ := List.mem_map.mp hmem
      rw [List.any_eq_true]
      exact ⟨p, hp, by simp [hfst]⟩
    rw [nodeTitle, Graph.addNode, if_pos hany]
    by_cases hd : d = id
    · subst hd
      rw [if_pos rfl]
      rw [show ({ G with nodes := G.nodes.map (fun p => if p.1 == d then (d, t) else p) } :
        Graph).nodes = G.nodes.map (fun p => if p.1 == d then (d, t) else p) from rfl]
      rw [find?_update_self G.nodes d t hmem]
      rfl
    · rw [if_neg hd]
      rw [show ({ G with nodes := G.nodes.map (fun p => if p.1 == id then (id, t) else p) } :
        Graph).nodes = G.nodes.map (fun p => if p.1 == id then (id, t) else p) from rfl]
      rw [find?_update_ne G.nodes id t d hd]
      rfl
  · have hany : G.nodes.any (fun p => p.1 == id) = false := any_fst_beq_eq_false.mpr hmem
    rw [nodeTitle, Graph.addNode, hany]
    simp only [Bool.false_eq_true, if_false]
    rw [List.find?_append]
    by_cases hd : d = id
    · subst hd
      have hnone : G.nodes.find? (fun p => p.1 == d) = none := by
        rw [List.find?_eq_none]
        intro p hp hb
        exact hmem (List.mem_map.mpr ⟨p, hp, beq_iff_eq.mp hb⟩)
      rw [hnone, if_pos rfl]
      simp [List.find?]
    · rw [if_neg hd]
      have hsingle : ([(id, t)] : List (String × String)).find? (fun p => p.1 == d)
          = none := by
        rw [List.find?_eq_none]
        intro p hp hb
        rw [List.mem_singleton] at hp
        subst hp
        exact hd (beq_iff_eq.mp hb).symm
      rw [hsingle, nodeTitle]
      cases G.nodes.find? (fun p => p.1 == d) <;> rfl

theorem nodeTitle_addNodes (ps : List (String × String)) (acc : Graph) (d : String) :
    nodeTitle (addNodes ps acc) d =
      match ps.reverse.find? (fun p => p.1 == d) with
      | some p => some p.2
      | none => nodeTitle acc d := by
  induction ps using List.reverseRecOn with
  | nil => rfl
  | append_singleton qs q ih =>
    have hfold : addNodes (qs ++ [q]) acc = (addNodes qs acc).addNode q.1 q.2 := by
      rw [addNodes, List.foldl_append]
      rfl
    rw [hfold, nodeTitle_addNode, List.reverse_append]
    simp only [List.reverse_singleton, List.singleton_append]
    by_cases hd : d = q.1
    · rw [if_pos hd]
      rw [List.find?_cons_of_pos _ (by simp [hd])]
    · rw [if_neg hd]
      rw [List.find?_cons_of_neg _ (by simp [Ne.symm hd])]
      exact ih

theorem allMemberIds_length_le (G : Graph) (videos : List Video)
    (louvain : Option (List (String × Nat)))
    (hnd : (G.nodes.map Prod.fst).Nodup)
    (hlouvain : ∀ p, louvain = some p →
      (p.map Prod.fst).Perm (G.nodes.map Prod.fst)) :
    (allMemberIds (_identify_content_clusters G louvain videos)).length
      ≤ G.nodes.length := by
  by_cases hn : G.nodes.length = 0
  · have hres : _identify_content_clusters G louvain videos = [] := by
      rw [_identify_content_clusters.eq_def, if_pos hn]
    rw [hres]
    simp [allMemberIds]
  · suffices H : ∀ (P : List (String × Nat)),
        (P.map Prod.fst).Perm (G.nodes.map Prod.fst) →
        (allMemberIds (sortBy (fun a b : Cluster => decide (b.size ≤ a.size))
            (((clusterBuckets P videos).filter (fun b => !b.2.isEmpty)).map
              (fun b => { id := b.1, videos := b.2, size := b.2.length })))).length
          ≤ G.nodes.length by
      cases louvain with
      | none =>
        have hres : _identify_content_clusters G none videos =
            sortBy (fun a b : Cluster => decide (b.size ≤ a.size))
              (((clusterBuckets (fallbackPartition G) videos).filter
                (fun b => !b.2.isEmpty)).map
                (fun b => { id := b.1, videos := b.2, size := b.2.length })) := by
          rw [_identify_content_clusters.eq_def, if_neg hn]
        rw [hres]
        exact H (fallbackPartition G) (fallbackPartition_keys_perm G hnd)
      | some q =>
        have hres : _identify_content_clusters G (some q) videos =
            sortBy (fun a b : Cluster => decide (b.size ≤ a.size))
              (((clusterBuckets q videos).filter (fun b => !b.2.isEmpty)).map
                (fun b => { id := b.1, videos := b.2, size := b.2.length })) := by
          rw [_identify_content_clusters.eq_def, if_neg hn]
        rw [hres]
        exact H q (hlouvain q rfl)
    intro P hperm
    have hfilter : (clusterBuckets P videos).filter (fun b => !b.2.isEmpty)
        = clusterBuckets P videos := by
      rw [List.filter_eq_self]
      intro b hb
      have := clusterBuckets_nonempty P videos b hb
      simpa [List.isEmpty_iff] using this
    have hlen : (allMemberIds (sortBy (fun a b : Cluster => decide (b.size ≤ a.size))
        (((clusterBuckets P videos).filter (fun b => !b.2.isEmpty)).map
          (fun b => { id := b.1, videos := b.2, size := b.2.length })))).length
        = (clusterContrib P videos).length := by
      rw [allMemberIds, hfilter]
      have hp1 := List.Perm.flatMap_right
        (fun (c : Cluster) => c.videos.map (fun m => m.id))
        (sortBy_perm (fun a b : Cluster => decide (b.size ≤ a.size))
          ((clusterBuckets P videos).map
            (fun b => { id := b.1, videos := b.2, size := b.2.length })))
      rw [hp1.length_eq, flatMap_clusters_eq]
      rw [List.length_map, (clusterBuckets_flatten_perm P videos).length_eq]
    rw [hlen]
    calc (clusterContrib P videos).length ≤ P.length :=
          List.length_filterMap_le _ _
      _ = (P.map Prod.fst).length := (List.length_map _ _).symm
      _ = (G.nodes.map Prod.fst).length := hperm.length_eq
      _ = G.nodes.length := List.length_map _ _

/-- C9: with duplicate ids in the input to `build_content_network`, the
constructed graph keeps a single node per id (its node-id list is
duplicate-free and covers exactly the input ids), whose title attribute is
that of the last (later) video carrying the id; consequently the graph's
node list, the visualization node list and the union of the cluster member
lists all have strictly fewer entries than there are input videos. -/
theorem duplicate_ids_collapse (videos : List Video) (M : List (List ℚ)) (th : ℚ)
    (louvain : Option (List (String × Nat))) (ids titles : List String)
    (hids : ids = videos.map (fun v => v.id))
    (htitles : titles = videos.map (fun v => v.title.getD "Unknown"))
    (hdup : ¬ids.Nodup)
    (hlouvain : ∀ p, louvain = some p → (p.map Prod.fst).Perm
      ((_create_graph M ids titles th).nodes.map Prod.fst)) :
    (((_create_graph M ids titles th).nodes.map Prod.fst).Nodup
      ∧ ∀ x, x ∈ (_create_graph M ids titles th).nodes.map Prod.fst ↔ x ∈ ids)
    ∧ (_create_graph M ids titles th).nodes.length < videos.length
    ∧ (∀ d, nodeTitle (_create_graph M ids titles th) d = lastTitleFor ids titles d)
    ∧ (_prepare_visualization_data (_create_graph M ids titles th) videos).nodes.length
        < videos.length
    ∧ (allMemberIds (_identify_content_clusters (_create_graph M ids titles th)
        louvain videos)).length < videos.length := by
  have hlenids : ids.length = videos.length := by
    rw [hids, List.length_map]
  have hlentitles : titles.length = ids.length := by
    rw [htitles, hids, List.length_map, List.length_map]
  have hG : (_create_graph M ids titles th).nodes = (addNodes (ids.zip titles) {}).nodes := by
    rw [_create_graph]
    exact foldl_edgeStep_nodes M ids th _ _
  have hnd : ((_create_graph M ids titles th).nodes.map Prod.fst).Nodup := by
    rw [hG]
    exact addNodes_map_fst_nodup _ _ (by simp)
  have hmm : ∀ x, x ∈ (_create_graph M ids titles th).nodes.map Prod.fst ↔ x ∈ ids := by
    intro x
    rw [hG, mem_addNodes_map_fst, List.map_fst_zip ids titles (le_of_eq hlentitles.symm)]
    simp
  have hnodeslt : (_create_graph M ids titles th).nodes.length < videos.length := by
    have h1 : (_create_graph M ids titles th).nodes.length
        = ((_create_graph M ids titles th).nodes.map Prod.fst).length :=
      (List.length_map _ _).symm
    have h2 : ((_create_graph M ids titles th).nodes.map Prod.fst).toFinset
        = ids.toFinset := by
      ext x
      rw [List.mem_toFinset, List.mem_toFinset, hmm]
    have h3 : ((_create_graph M ids titles th).nodes.map Prod.fst).length
        = ids.dedup.length := by
      rw [← List.toFinset_card_of_nodup hnd, h2, List.card_toFinset]
    rw [h1, h3, ← hlenids]
    exact dedup_length_lt hdup
  refine ⟨⟨hnd, hmm⟩, hnodeslt, ?_, ?_, ?_⟩
  · intro d
    have h1 : nodeTitle (_create_graph M ids titles th) d
        = nodeTitle (addNodes (ids.zip titles) {}) d := by
      rw [nodeTitle, nodeTitle, hG]
    rw [h1, nodeTitle_addNodes, lastTitleFor]
    cases ((ids.zip titles).reverse.find? (fun p => p.1 == d)) <;> rfl
  · refine lt_of_le_of_lt ?_ hnodeslt
    rw [_prepare_visualization_data]
    exact List.length_filterMap_le _ _
  · exact lt_of_le_of_lt
      (allMemberIds_length_le (_create_graph M ids titles th) videos louvain hnd hlouvain)
      hnodeslt

/-- Witness for `duplicate_ids_collapse`: two videos sharing id "a" (titles
"t1" and "t2") produce one "a" node titled "t2", and every derived entity
list is shorter than the 2-video input. -/
theorem duplicate_ids_collapse_witness :
    ((((_create_graph [[1, 1], [1, 1]] ["a", "a"] ["t1", "t2"]
        similarity_threshold).nodes.map Prod.fst).Nodup)
      ∧ (_create_graph [[1, 1], [1, 1]] ["a", "a"] ["t1", "t2"]
        similarity_threshold).nodes.length
          < ([{ id := "a", title := some "t1" }, { id := "a", title := some "t2" }] :
              List Video).length)
    ∧ nodeTitle (_create_graph [[1, 1], [1, 1]] ["a", "a"] ["t1", "t2"]
        similarity_threshold) "a" = lastTitleFor ["a", "a"] ["t1", "t2"] "a" := by
  have H := duplicate_ids_collapse
    [{ id := "a", title := some "t1" }, { id := "a", title := some "t2" }]
    [[1, 1], [1, 1]] similarity_threshold none ["a", "a"] ["t1", "t2"]
    (by decide) (by decide) (by decide) (fun p h => nomatch h)
  exact ⟨⟨H.1.1, H.2.1⟩, H.2.2.1 "a"⟩

/-- C10 counterexample: the claim says only when both transcript and
description are empty does a document contribute an empty topic list.  A
document whose transcript is the single-character text "a" (nonempty) also
contributes an empty list: `_extract_topics_from_text` runs the
TfidfVectorizer on "a", whose default token pattern admits no token of two
or more word characters, so `fit_transform` raises ValueError("empty
vocabulary ...") — modelled by the oracle returning `none` — and the
handler at line 586 returns `[]`. -/
theorem nonempty_text_empty_topics_counterexample :
    (compute_video_topics (fun _ => none) [{ id := "v1", transcript := "a" }]).map
        (fun vt => vt.topics) = [[]]
    ∧ ({ id := "v1", transcript := "a" } : Video).transcript ≠ ""
    ∧ hasSummaryTopics { id := "v1", transcript := "a" } = false := by
  refine ⟨rfl, by decide, rfl⟩

/-- C10 amended: in `analyze_topic_evolution`, every processed document is
one of the inputs and carries `videoTopicSource`'s topics; when the summary
carries no topics the fallback extracts from the transcript if it is
nonempty, else from the description; when both are empty the contributed
topic list is empty — but a nonempty text can also contribute an empty list
when extraction finds no usable term or vectorization fails. -/
theorem topic_evolution_fallback (tfidf : String → Option (List (String × ℚ)))
    (videos : List Video) :
    (∀ vt ∈ compute_video_topics tfidf videos, ∃ v ∈ videos,
        vt.id = v.id ∧ vt.topics = videoTopicSource tfidf v)
    ∧ (∀ v : Video, hasSummaryTopics v = false → v.transcript ≠ "" →
        videoTopicSource tfidf v = _extract_topics_from_text tfidf v.transcript)
    ∧ (∀ v : Video, hasSummaryTopics v = false → v.transcript = "" →
        videoTopicSource tfidf v = _extract_topics_from_text tfidf v.description)
    ∧ (∀ v : Video, hasSummaryTopics v = false → v.transcript = "" →
        v.description = "" → videoTopicSource tfidf v = [])
    ∧ _extract_topics_from_text tfidf "" = [] := by
  have hempty : _extract_topics_from_text tfidf "" = [] := by
    rw [_extract_topics_from_text, if_pos rfl]
  refine ⟨?_, ?_, ?_, ?_, hempty⟩
  · intro vt hvt
    rw [compute_video_topics] at hvt
    obtain ⟨v, hv, rfl⟩ := List.mem_map.mp hvt
    exact ⟨v, (sortBy_perm _ videos).mem_iff.mp hv, rfl, rfl⟩
  · intro v hs ht
    rw [videoTopicSource, if_neg (by simp [hs])]
    rw [if_pos (by simpa using ht)]
  · intro v hs ht
    rw [videoTopicSource, if_neg (by simp [hs])]
    rw [if_neg (by simpa using ht)]
  · intro v hs ht hd
    rw [videoTopicSource, if_neg (by simp [hs])]
    rw [if_neg (by simpa using ht), hd, hempty]

/-- Witness for `topic_evolution_fallback`: a document with empty
transcript and description and no summary contributes the empty topic
list. -/
theorem topic_evolution_fallback_witness :
    videoTopicSource (fun _ => none) ({ id := "v2" } : Video) = [] :=
  (topic_evolution_fallback (fun _ => none) []).2.2.2.1 { id := "v2" } rfl rfl rfl
